import Mathlib

/-!
Verification development for the confidential logistics route-optimization
contracts of this repository.

Two Solidity contracts are embedded, faithfully to the source:
* `Core` embeds `src/contracts/LogisticsRouteOptimizer.sol` (array-based
  submission, FHE handle allocation and access-control-list grants).
* `Ex` embeds `src/examples/logistics-optimizer/contracts/LogisticsRouteOptimizer.sol`
  (scalar submission, pause/pauser machinery, `finalizeRoute`).

Machine integers are modelled as `Nat` with explicit reduction modulo `2^w`;
Solidity 0.8 checked arithmetic that reverts on overflow is modelled as an
explicit `Err.Panic` outcome.  FHE ciphertexts in `Core` are modelled as
handles into an engine state carrying the plaintext value of each handle
and the access grants recorded by `FHE.allowThis` / `FHE.allow`.
-/

def U32 : Nat := 4294967296

def U8 : Nat := 256

def U64 : Nat := 18446744073709551616

abbrev Address := Nat

/-- Error taxonomy of the contracts.  The core contract raises these as
`require` messages, the example contract as custom errors with the same
meaning; `Panic` models a Solidity 0.8 checked-arithmetic revert. -/
inductive Err where
  | NotAuthorized
  | NotYourRoute
  | CoordinateArraysMismatch
  | PriorityArrayMismatch
  | NoLocationsProvided
  | RouteAlreadyProcessed
  | InvalidRoute
  | InvalidLocationIndex
  | LocationAlreadyCompleted
  | RouteNotProcessed
  | ContractPaused
  | NotPauser
  | AlreadyPauser
  | InvalidAddress
  | Panic
  deriving DecidableEq, Repr

namespace Core

/-- FHE engine state: a fresh-handle counter, the plaintext value under each
handle, and the access-control list written by `FHE.allowThis` (grant to the
contract itself) and `FHE.allow` (grant to an external address). -/
structure Fhe where
  nextHandle : Nat
  hval : Nat → Nat
  aclSelf : Nat → Bool
  aclExt : Nat → Address → Bool

def Fhe.start : Fhe :=
  { nextHandle := 1, hval := fun _ => 0, aclSelf := fun _ => false,
    aclExt := fun _ _ => false }

/-- Allocate a fresh handle holding value `v`. -/
def Fhe.put (f : Fhe) (v : Nat) : Fhe :=
  { nextHandle := f.nextHandle + 1
    hval := fun h => if h = f.nextHandle then v else f.hval h
    aclSelf := f.aclSelf
    aclExt := f.aclExt }

/-- `FHE.asEuint32`: trivial encryption of a 32-bit plaintext. -/
def Fhe.asEuint32 (f : Fhe) (x : Nat) : Nat × Fhe :=
  (f.nextHandle, f.put (x % U32))

/-- `FHE.asEuint8`: trivial encryption of an 8-bit plaintext. -/
def Fhe.asEuint8 (f : Fhe) (x : Nat) : Nat × Fhe :=
  (f.nextHandle, f.put (x % U8))

/-- `FHE.add` on euint32 handles: wrapping addition modulo `2^32`. -/
def Fhe.add32 (f : Fhe) (a b : Nat) : Nat × Fhe :=
  (f.nextHandle, f.put ((f.hval a + f.hval b) % U32))

/-- `FHE.sub` on euint32 handles: wrapping subtraction modulo `2^32`. -/
def Fhe.sub32 (f : Fhe) (a b : Nat) : Nat × Fhe :=
  (f.nextHandle, f.put ((U32 + f.hval a - f.hval b) % U32))

/-- `FHE.mul` on euint32 handles: wrapping multiplication modulo `2^32`. -/
def Fhe.mul32 (f : Fhe) (a b : Nat) : Nat × Fhe :=
  (f.nextHandle, f.put ((f.hval a * f.hval b) % U32))

/-- `FHE.allowThis`: grant the contract itself access to handle `h`. -/
def Fhe.allowThis (f : Fhe) (h : Nat) : Fhe :=
  { f with aclSelf := fun h2 => if h2 = h then true else f.aclSelf h2 }

/-- `FHE.allow`: grant address `a` access to handle `h`. -/
def Fhe.allow (f : Fhe) (h : Nat) (a : Address) : Fhe :=
  { f with aclExt := fun h2 a2 => if h2 = h ∧ a2 = a then true else f.aclExt h2 a2 }

/-- Per-location record of the core contract (`DeliveryLocation`); the three
coordinate/priority fields are ciphertext handles. -/
structure DeliveryLocation where
  encryptedX : Nat
  encryptedY : Nat
  priority : Nat
  isActive : Bool
  deriving DecidableEq, Repr

/-- `RouteRequest` record of the core contract; `maxTravelDistance` and
`vehicleCapacity` are ciphertext handles. -/
structure RouteRequest where
  requester : Address
  locationCount : Nat
  maxTravelDistance : Nat
  vehicleCapacity : Nat
  processed : Bool
  optimizedRouteId : Nat
  timestamp : Nat
  deriving DecidableEq, Repr

/-- `OptimizedRoute` record of the core contract; `totalDistance` and
`estimatedTime` are ciphertext handles. -/
structure OptimizedRoute where
  routeId : Nat
  requester : Address
  totalDistance : Nat
  estimatedTime : Nat
  isConfidential : Bool
  createdAt : Nat
  locationOrder : List Nat
  deriving DecidableEq, Repr

/-- Solidity mapping default value for `DeliveryLocation`. -/
def defaultLoc : DeliveryLocation := ⟨0, 0, 0, false⟩

/-- Solidity mapping default value for `RouteRequest`. -/
def defaultReq : RouteRequest := ⟨0, 0, 0, 0, false, 0, 0⟩

/-- Solidity mapping default value for `OptimizedRoute`. -/
def defaultOpt : OptimizedRoute := ⟨0, 0, 0, 0, false, 0, []⟩

inductive Event where
  | RouteRequested (routeId : Nat) (requester : Address) (locationCount : Nat)
  | RouteOptimized (routeId : Nat) (requester : Address) (totalDistance : Nat)
  | DeliveryCompleted (routeId : Nat) (locationIndex : Nat)
  deriving DecidableEq, Repr

/-- Full storage of the core contract plus the FHE engine state.  Solidity
mappings are modelled as total functions returning the zero-struct default. -/
structure State where
  owner : Address
  routeCounter : Nat
  routeRequests : Nat → RouteRequest
  routeLocations : Nat → Nat → DeliveryLocation
  optimizedRoutes : Nat → OptimizedRoute
  userRoutes : Address → List Nat
  fhe : Fhe

/-- Constructor: `owner = msg.sender`, `routeCounter = 0`, empty storage. -/
def init (deployer : Address) : State :=
  { owner := deployer
    routeCounter := 0
    routeRequests := fun _ => defaultReq
    routeLocations := fun _ _ => defaultLoc
    optimizedRoutes := fun _ => defaultOpt
    userRoutes := fun _ => []
    fhe := Fhe.start }

/-- The per-location storage loop of `requestRouteOptimization`: encrypt the
triple, store the `DeliveryLocation` with `isActive = true`, grant access to
the contract and to the caller, continue at index `i + 1`. -/
def storeLocs (sender : Address) (rid : Nat) :
    List ((Nat × Nat) × Nat) → Nat → (Nat → Nat → DeliveryLocation) → Fhe →
    ((Nat → Nat → DeliveryLocation) × Fhe)
  | [], _, locs, f => (locs, f)
  | t :: rest, i, locs, f =>
    let hx := (Fhe.asEuint32 f t.1.1).1
    let f1 := (Fhe.asEuint32 f t.1.1).2
    let hy := (Fhe.asEuint32 f1 t.1.2).1
    let f2 := (Fhe.asEuint32 f1 t.1.2).2
    let hp := (Fhe.asEuint8 f2 t.2).1
    let f3 := (Fhe.asEuint8 f2 t.2).2
    let locs1 := fun r j =>
      if r = rid ∧ j = i then DeliveryLocation.mk hx hy hp true else locs r j
    let f4 := Fhe.allow (Fhe.allow (Fhe.allow
      (Fhe.allowThis (Fhe.allowThis (Fhe.allowThis f3 hx) hy) hp)
      hx sender) hy sender) hp sender
    storeLocs sender rid rest (i + 1) locs1 f4

/-- Success path of the core `requestRouteOptimization`: encrypt the two
constraint scalars (in struct-literal field order), run the location-storage
loop, grant access on the constraints, append to the caller's route index,
emit `RouteRequested` with only the id, caller and array length. -/
def requestBody (s : State) (sender : Address) (now : Nat)
    (xs ys ps : List Nat) (maxDistance vehicleCapacity : Nat) :
    Nat × State × List Event :=
  let rid := s.routeCounter + 1
  let hMax := (Fhe.asEuint32 s.fhe maxDistance).1
  let fA := (Fhe.asEuint32 s.fhe maxDistance).2
  let hCap := (Fhe.asEuint8 fA vehicleCapacity).1
  let fB := (Fhe.asEuint8 fA vehicleCapacity).2
  let req : RouteRequest :=
    ⟨sender, xs.length, hMax, hCap, false, 0, now⟩
  let locsF := storeLocs sender rid ((xs.zip ys).zip ps) 0 s.routeLocations fB
  let fC := Fhe.allow (Fhe.allow
    (Fhe.allowThis (Fhe.allowThis locsF.2 hMax) hCap) hMax sender) hCap sender
  (rid,
   { s with
     routeCounter := rid
     routeRequests := fun r => if r = rid then req else s.routeRequests r
     routeLocations := locsF.1
     userRoutes := fun a =>
       if a = sender then s.userRoutes a ++ [rid] else s.userRoutes a
     fhe := fC },
   [.RouteRequested rid sender xs.length])

/-- `requestRouteOptimization` of the core contract.  The three `require`
checks come first; `Err.Panic` models the checked-arithmetic reverts (route
counter overflow at `2^32`, and the `uint8` loop counter overflowing when the
array length reaches 256). -/
def requestRouteOptimization (s : State) (sender : Address) (now : Nat)
    (xs ys ps : List Nat) (maxDistance vehicleCapacity : Nat) :
    Except Err (Nat × State × List Event) :=
  if xs.length ≠ ys.length then .error .CoordinateArraysMismatch
  else if xs.length ≠ ps.length then .error .PriorityArrayMismatch
  else if xs.length = 0 then .error .NoLocationsProvided
  else if U32 ≤ s.routeCounter + 1 then .error .Panic
  else if 256 ≤ xs.length then .error .Panic
  else .ok (requestBody s sender now xs ys ps maxDistance vehicleCapacity)

/-- The loop of `_calculateOptimalRoute`: for each consecutive pair compute
`FHE.sub` on the X handles, `FHE.sub` on the Y handles, `FHE.add` the two
deltas (`_calculateDistance`), and `FHE.add` into the accumulator. -/
def calcLoop (rid : Nat) (locs : Nat → Nat → DeliveryLocation) :
    Nat → Nat → Nat → Fhe → Nat × Fhe
  | _, 0, acc, f => (acc, f)
  | i, fuel + 1, acc, f =>
    let loc1 := locs rid i
    let loc2 := locs rid (i + 1)
    let hdx := (Fhe.sub32 f loc2.encryptedX loc1.encryptedX).1
    let f1 := (Fhe.sub32 f loc2.encryptedX loc1.encryptedX).2
    let hdy := (Fhe.sub32 f1 loc2.encryptedY loc1.encryptedY).1
    let f2 := (Fhe.sub32 f1 loc2.encryptedY loc1.encryptedY).2
    let hd := (Fhe.add32 f2 hdx hdy).1
    let f3 := (Fhe.add32 f2 hdx hdy).2
    let hacc := (Fhe.add32 f3 acc hd).1
    let f4 := (Fhe.add32 f3 acc hd).2
    calcLoop rid locs (i + 1) fuel hacc f4

/-- Success path of the core `processRouteOptimization`: encrypt 0, run the
`_calculateOptimalRoute` loop, run `_calculateDeliveryTime` (whose
`loadingTime` product is computed and discarded; the returned time is the
constant 100), build the identity `locationOrder`, store the
`OptimizedRoute`, grant access on the two result handles to the contract and
the requester, flip `processed`, emit `RouteOptimized` with distance 0. -/
def processBody (s : State) (now rid : Nat) : State × List Event :=
  let req := s.routeRequests rid
  let h0 := (Fhe.asEuint32 s.fhe 0).1
  let f1 := (Fhe.asEuint32 s.fhe 0).2
  let hTotal := (calcLoop rid s.routeLocations 0 (req.locationCount - 1) h0 f1).1
  let f2 := (calcLoop rid s.routeLocations 0 (req.locationCount - 1) h0 f1).2
  let hCnt := (Fhe.asEuint32 f2 req.locationCount).1
  let f3 := (Fhe.asEuint32 f2 req.locationCount).2
  let h5 := (Fhe.asEuint32 f3 5).1
  let f4 := (Fhe.asEuint32 f3 5).2
  let f5 := (Fhe.mul32 f4 hCnt h5).2
  let hTime := (Fhe.asEuint8 f5 100).1
  let f6 := (Fhe.asEuint8 f5 100).2
  let order := List.range req.locationCount
  let opt : OptimizedRoute := ⟨rid, req.requester, hTotal, hTime, true, now, order⟩
  let f7 := Fhe.allow (Fhe.allow
    (Fhe.allowThis (Fhe.allowThis f6 hTotal) hTime) hTotal req.requester)
    hTime req.requester
  let req1 := { req with processed := true, optimizedRouteId := rid }
  ({ s with
     routeRequests := fun r => if r = rid then req1 else s.routeRequests r
     optimizedRoutes := fun r => if r = rid then opt else s.optimizedRoutes r
     fhe := f7 },
   [.RouteOptimized rid req.requester 0])

/-- `processRouteOptimization` of the core contract.  `Err.Panic` models the
checked-arithmetic revert when `locationCount` is 0 (the `locationCount - 1`
underflow) or at least 256 (the `uint8` loop counters overflow). -/
def processRouteOptimization (s : State) (sender : Address) (now : Nat)
    (rid : Nat) : Except Err (State × List Event) :=
  if sender ≠ s.owner then .error .NotAuthorized
  else if (s.routeRequests rid).processed then .error .RouteAlreadyProcessed
  else if (s.routeRequests rid).requester = 0 then .error .InvalidRoute
  else if (s.routeRequests rid).locationCount = 0 ∨
      256 ≤ (s.routeRequests rid).locationCount then .error .Panic
  else .ok (processBody s now rid)

/-- `markDeliveryCompleted` of the core contract: requester-only, then the
three `require` checks, then the single `isActive := false` write.  The FHE
engine state is not touched. -/
def markDoneBody (s : State) (rid idx : Nat) : State × List Event :=
  ({ s with routeLocations := fun r j =>
       if r = rid ∧ j = idx then
         { s.routeLocations rid idx with isActive := false }
       else s.routeLocations r j },
   [.DeliveryCompleted rid idx])

def markDeliveryCompleted (s : State) (sender : Address) (rid idx : Nat) :
    Except Err (State × List Event) :=
  if sender ≠ (s.routeRequests rid).requester then .error .NotYourRoute
  else if ¬ (s.routeRequests rid).processed then .error .RouteNotProcessed
  else if ¬ idx < (s.routeRequests rid).locationCount then .error .InvalidLocationIndex
  else if ¬ (s.routeLocations rid idx).isActive then .error .LocationAlreadyCompleted
  else .ok (markDoneBody s rid idx)

/-- `getUserRoutes` view. -/
def getUserRoutes (s : State) (u : Address) : List Nat := s.userRoutes u

/-- `getRouteRequest` view: public metadata only. -/
def getRouteRequest (s : State) (rid : Nat) : Address × Nat × Bool × Nat :=
  ((s.routeRequests rid).requester, (s.routeRequests rid).locationCount,
   (s.routeRequests rid).processed, (s.routeRequests rid).timestamp)

/-- `getOptimizedRoute` view: requester-only, requires the route processed;
returns the two ciphertext handles, the plaintext order and timestamp. -/
def getOptimizedRoute (s : State) (sender : Address) (rid : Nat) :
    Except Err (Nat × Nat × List Nat × Nat) :=
  if sender ≠ (s.routeRequests rid).requester then .error .NotYourRoute
  else if ¬ (s.routeRequests rid).processed then .error .RouteNotProcessed
  else
    .ok ((s.optimizedRoutes rid).totalDistance,
         (s.optimizedRoutes rid).estimatedTime,
         (s.optimizedRoutes rid).locationOrder,
         (s.optimizedRoutes rid).createdAt)

/-- `getRouteDataForOwner` view: owner-only, requires the route processed. -/
def getRouteDataForOwner (s : State) (sender : Address) (rid : Nat) :
    Except Err (Nat × Nat × Address × Nat) :=
  if sender ≠ s.owner then .error .NotAuthorized
  else if ¬ (s.routeRequests rid).processed then .error .RouteNotProcessed
  else
    .ok ((s.optimizedRoutes rid).totalDistance,
         (s.optimizedRoutes rid).estimatedTime,
         (s.optimizedRoutes rid).requester,
         (s.optimizedRoutes rid).createdAt)

/-- One external call into the core contract. -/
inductive Call where
  | request (sender now : Nat) (xs ys ps : List Nat) (maxDistance vehicleCapacity : Nat)
  | process (sender now rid : Nat)
  | markDone (sender rid idx : Nat)

/-- Dispatch one call, discarding return values but keeping emitted events. -/
def step (s : State) : Call → Except Err (State × List Event)
  | .request sender now xs ys ps m c =>
    match requestRouteOptimization s sender now xs ys ps m c with
    | .ok r => .ok (r.2.1, r.2.2)
    | .error e => .error e
  | .process sender now rid => processRouteOptimization s sender now rid
  | .markDone sender rid idx => markDeliveryCompleted s sender rid idx

/-- States reachable from deployment by successful calls (failed calls leave
the state unchanged by the ledger's atomicity). -/
inductive Reachable : State → Prop where
  | base (d : Address) : Reachable (init d)
  | next {s : State} {c : Call} {s1 : State} {ev : List Event} :
      Reachable s → step s c = .ok (s1, ev) → Reachable s1

end Core

namespace Ex

/-- `RouteRequest` of the example contract; ciphertext fields here carry the
plaintext value under the handle (the example contract records no grants, so
no handle/ACL engine is needed). -/
structure RouteRequest where
  requester : Address
  locationCount : Nat
  maxTravelDistance : Nat
  vehicleCapacity : Nat
  processed : Bool
  optimizedRouteId : Nat
  timestamp : Nat
  requestBlock : Nat
  deriving DecidableEq, Repr

structure DeliveryLocation where
  encryptedX : Nat
  encryptedY : Nat
  priority : Nat
  isActive : Bool
  deriving DecidableEq, Repr

structure OptimizedRoute where
  routeId : Nat
  requester : Address
  totalDistance : Nat
  totalDistanceSquared : Nat
  estimatedTime : Nat
  isConfidential : Bool
  createdAt : Nat
  locationOrder : List Nat
  finalized : Bool
  deriving DecidableEq, Repr

def defaultReq : RouteRequest := ⟨0, 0, 0, 0, false, 0, 0, 0⟩

def defaultLoc : DeliveryLocation := ⟨0, 0, 0, false⟩

def defaultOpt : OptimizedRoute := ⟨0, 0, 0, 0, 0, false, 0, [], false⟩

inductive Event where
  | RouteRequested (routeId : Nat) (requester : Address) (locationCount : Nat) (timestamp : Nat)
  | RouteOptimized (routeId : Nat) (requester : Address) (timestamp : Nat)
  | RouteFinalized (routeId : Nat) (decryptedDistance : Nat) (decryptedTime : Nat)
  | DeliveryCompleted (routeId : Nat) (locationIndex : Nat) (timestamp : Nat)
  | PauserAdded (pauser : Address)
  | PauserRemoved (pauser : Address)
  | ContractPausedToggled (paused : Bool)
  | OwnershipTransferred (previousOwner : Address) (newOwner : Address)
  deriving DecidableEq, Repr

/-- Full storage of the example contract. -/
structure State where
  owner : Address
  routeCounter : Nat
  paused : Bool
  pausers : Address → Bool
  routeRequests : Nat → RouteRequest
  routeLocations : Nat → Nat → DeliveryLocation
  optimizedRoutes : Nat → OptimizedRoute
  userRoutes : Address → List Nat

/-- Constructor: deployer becomes owner, is registered as a pauser, and a
`PauserAdded` event is emitted. -/
def init (deployer : Address) : State × List Event :=
  ({ owner := deployer
     routeCounter := 0
     paused := false
     pausers := fun a => if a = deployer then true else false
     routeRequests := fun _ => defaultReq
     routeLocations := fun _ _ => defaultLoc
     optimizedRoutes := fun _ => defaultOpt
     userRoutes := fun _ => [] },
   [.PauserAdded deployer])

/-- `requestRouteOptimization` of the example contract: `whenNotPaused`, then
counter increment (checked arithmetic), then the request record with
`locationCount = 3` hard-coded; the coordinate/priority arguments are never
stored.  No `DeliveryLocation` is ever written by this contract. -/
def requestBody (s : State) (sender : Address) (now blk : Nat)
    (maxDistance vehicleCapacityValue : Nat) : Nat × State × List Event :=
  let rid := s.routeCounter + 1
  let req : RouteRequest :=
    ⟨sender, 3, maxDistance % U32, vehicleCapacityValue % U8, false, 0, now, blk⟩
  (rid,
   { s with
     routeCounter := rid
     routeRequests := fun r => if r = rid then req else s.routeRequests r
     userRoutes := fun a =>
       if a = sender then s.userRoutes a ++ [rid] else s.userRoutes a },
   [.RouteRequested rid sender 3 now])

def requestRouteOptimization (s : State) (sender : Address) (now blk : Nat)
    (_xCoord _yCoord _priority : Nat) (maxDistance vehicleCapacityValue : Nat) :
    Except Err (Nat × State × List Event) :=
  if s.paused then .error .ContractPaused
  else if U32 ≤ s.routeCounter + 1 then .error .Panic
  else .ok (requestBody s sender now blk maxDistance vehicleCapacityValue)

/-- `processRouteOptimization` of the example contract: `onlyOwner` runs
before `whenNotPaused`, then the processed/existence checks.
`_calculateOptimalRoute` returns `maxTravelDistance` unchanged;
`totalDistanceSquared` is its 64-bit homomorphic square; `estimatedTime` is
the constant 30; `locationOrder` is the identity order. -/
def processBody (s : State) (now rid : Nat) : State × List Event :=
  let req := s.routeRequests rid
  let td := req.maxTravelDistance
  let tds := (td * td) % U64
  let opt : OptimizedRoute :=
    ⟨rid, req.requester, td, tds, 30 % U8, true, now,
     List.range req.locationCount, false⟩
  let req1 := { req with processed := true, optimizedRouteId := rid }
  ({ s with
     routeRequests := fun r => if r = rid then req1 else s.routeRequests r
     optimizedRoutes := fun r => if r = rid then opt else s.optimizedRoutes r },
   [.RouteOptimized rid req.requester now])

def processRouteOptimization (s : State) (sender : Address) (now : Nat)
    (rid : Nat) : Except Err (State × List Event) :=
  if sender ≠ s.owner then .error .NotAuthorized
  else if s.paused then .error .ContractPaused
  else if (s.routeRequests rid).processed then .error .RouteAlreadyProcessed
  else if (s.routeRequests rid).requester = 0 then .error .InvalidRoute
  else if 256 ≤ (s.routeRequests rid).locationCount then .error .Panic
  else .ok (processBody s now rid)

/-- `finalizeRoute`: `onlyOwner`, `whenNotPaused`, requires the route
processed; sets `finalized := true` and emits `RouteFinalized(routeId, 0, 0)`.
There is no guard against calling it again. -/
def finalizeBody (s : State) (rid : Nat) : State × List Event :=
  ({ s with optimizedRoutes := fun r =>
       if r = rid then { s.optimizedRoutes rid with finalized := true }
       else s.optimizedRoutes r },
   [.RouteFinalized rid 0 0])

def finalizeRoute (s : State) (sender : Address) (rid : Nat) :
    Except Err (State × List Event) :=
  if sender ≠ s.owner then .error .NotAuthorized
  else if s.paused then .error .ContractPaused
  else if ¬ (s.routeRequests rid).processed then .error .RouteNotProcessed
  else .ok (finalizeBody s rid)

/-- `markDeliveryCompleted` of the example contract: `onlyRequester` runs
before `whenNotPaused`, then the three state checks. -/
def markDoneBody (s : State) (now rid idx : Nat) : State × List Event :=
  ({ s with routeLocations := fun r j =>
       if r = rid ∧ j = idx then
         { s.routeLocations rid idx with isActive := false }
       else s.routeLocations r j },
   [.DeliveryCompleted rid idx now])

def markDeliveryCompleted (s : State) (sender : Address) (now : Nat)
    (rid idx : Nat) : Except Err (State × List Event) :=
  if sender ≠ (s.routeRequests rid).requester then .error .NotYourRoute
  else if s.paused then .error .ContractPaused
  else if ¬ (s.routeRequests rid).processed then .error .RouteNotProcessed
  else if ¬ idx < (s.routeRequests rid).locationCount then .error .InvalidLocationIndex
  else if ¬ (s.routeLocations rid idx).isActive then .error .LocationAlreadyCompleted
  else .ok (markDoneBody s now rid idx)

/-- `addPauser`: owner-only; rejects the null address and current pausers. -/
def addPauser (s : State) (sender p : Address) :
    Except Err (State × List Event) :=
  if sender ≠ s.owner then .error .NotAuthorized
  else if p = 0 then .error .InvalidAddress
  else if s.pausers p then .error .AlreadyPauser
  else
    .ok ({ s with pausers := fun a => if a = p then true else s.pausers a },
         [.PauserAdded p])

/-- `removePauser`: owner-only; rejects non-pausers. -/
def removePauser (s : State) (sender p : Address) :
    Except Err (State × List Event) :=
  if sender ≠ s.owner then .error .NotAuthorized
  else if ¬ s.pausers p then .error .NotPauser
  else
    .ok ({ s with pausers := fun a => if a = p then false else s.pausers a },
         [.PauserRemoved p])

/-- `togglePause`: callable by any current pauser or the owner; flips the
global flag and emits the new value. -/
def togglePause (s : State) (sender : Address) :
    Except Err (State × List Event) :=
  if ¬ s.pausers sender ∧ sender ≠ s.owner then .error .NotPauser
  else
    .ok ({ s with paused := ! s.paused },
         [.ContractPausedToggled (! s.paused)])

/-- `transferOwnership`: owner-only; rejects the null address; swaps the
owner field only. -/
def transferOwnership (s : State) (sender newOwner : Address) :
    Except Err (State × List Event) :=
  if sender ≠ s.owner then .error .NotAuthorized
  else if newOwner = 0 then .error .InvalidAddress
  else
    .ok ({ s with owner := newOwner },
         [.OwnershipTransferred s.owner newOwner])

/-- `getUserRoutes` view. -/
def getUserRoutes (s : State) (u : Address) : List Nat := s.userRoutes u

/-- `getRouteRequest` view: public metadata only. -/
def getRouteRequest (s : State) (rid : Nat) : Address × Nat × Bool × Nat :=
  ((s.routeRequests rid).requester, (s.routeRequests rid).locationCount,
   (s.routeRequests rid).processed, (s.routeRequests rid).timestamp)

/-- One external call into the example contract. -/
inductive Call where
  | request (sender now blk xCoord yCoord priority maxDistance vehicleCapacityValue : Nat)
  | process (sender now rid : Nat)
  | finalize (sender rid : Nat)
  | markDone (sender now rid idx : Nat)
  | addP (sender p : Nat)
  | removeP (sender p : Nat)
  | toggle (sender : Nat)
  | transferOwn (sender newOwner : Nat)

/-- Dispatch one call, discarding return values but keeping emitted events. -/
def step (s : State) : Call → Except Err (State × List Event)
  | .request sender now blk x y pri m c =>
    match requestRouteOptimization s sender now blk x y pri m c with
    | .ok r => .ok (r.2.1, r.2.2)
    | .error e => .error e
  | .process sender now rid => processRouteOptimization s sender now rid
  | .finalize sender rid => finalizeRoute s sender rid
  | .markDone sender now rid idx => markDeliveryCompleted s sender now rid idx
  | .addP sender p => addPauser s sender p
  | .removeP sender p => removePauser s sender p
  | .toggle sender => togglePause s sender
  | .transferOwn sender newOwner => transferOwnership s sender newOwner

/-- States reachable from deployment by successful calls. -/
inductive Reachable : State → Prop where
  | base (d : Address) : Reachable (init d).1
  | next {s : State} {c : Call} {s1 : State} {ev : List Event} :
      Reachable s → step s c = .ok (s1, ev) → Reachable s1

end Ex

/-! ## Spec-level distance functions

`routeDistance` is the value-level description of what the core contract's
`_calculateOptimalRoute` computes (wrapping differences, no absolute value);
`manhattanRouteDistance` is the claim-side definition following the spec's
words (sum of absolute coordinate differences), used for comparison. -/

/-- Wrapping 32-bit difference `a - b` as computed by `FHE.sub` on euint32. -/
def wrapSub (a b : Nat) : Nat := (U32 + a % U32 - b % U32) % U32

/-- Value computed by `_calculateDistance` for the pair `(p, q)` of plaintext
coordinate pairs: wrapped X difference plus wrapped Y difference, mod `2^32`. -/
def pairDist (p q : Nat × Nat) : Nat := (wrapSub q.1 p.1 + wrapSub q.2 p.2) % U32

/-- Accumulation of `_calculateOptimalRoute` over consecutive pairs in
submission order, starting from `acc`. -/
def routeDistanceAux : Nat × Nat → List (Nat × Nat) → Nat → Nat
  | _, [], acc => acc
  | p, q :: rest, acc => routeDistanceAux q rest ((acc + pairDist p q) % U32)

/-- Plaintext value under the `totalDistance` ciphertext produced by the core
contract for a route whose submitted coordinate pairs are `l`. -/
def routeDistance : List (Nat × Nat) → Nat
  | [] => 0
  | p :: rest => routeDistanceAux p rest 0

/-- `|a - b|` on naturals. -/
def absDiff (a b : Nat) : Nat := max a b - min a b

/-- Claim-side definition following the spec's words: the Manhattan distance
`|x2-x1| + |y2-y1|` of a consecutive pair (of the stored 32-bit values),
reduced mod `2^32` as any euint32 sum would be. -/
def manhattanPairDist (p q : Nat × Nat) : Nat :=
  (absDiff (q.1 % U32) (p.1 % U32) + absDiff (q.2 % U32) (p.2 % U32)) % U32

/-- Claim-side accumulation of Manhattan pair distances. -/
def manhattanAux : Nat × Nat → List (Nat × Nat) → Nat → Nat
  | _, [], acc => acc
  | p, q :: rest, acc => manhattanAux q rest ((acc + manhattanPairDist p q) % U32)

/-- Claim-side total: homomorphic sum of Manhattan distances of consecutive
pairs, as claim C1 states the code computes. -/
def manhattanRouteDistance : List (Nat × Nat) → Nat
  | [] => 0
  | p :: rest => manhattanAux p rest 0

/-! ## FHE engine helper lemmas -/

theorem fhe_put_nextHandle (f : Core.Fhe) (v : Nat) :
    (Core.Fhe.put f v).nextHandle = f.nextHandle + 1 := rfl

theorem fhe_put_hval (f : Core.Fhe) (v h : Nat) :
    (Core.Fhe.put f v).hval h = if h = f.nextHandle then v else f.hval h := rfl

theorem fhe_put_aclSelf (f : Core.Fhe) (v : Nat) :
    (Core.Fhe.put f v).aclSelf = f.aclSelf := rfl

theorem fhe_put_aclExt (f : Core.Fhe) (v : Nat) :
    (Core.Fhe.put f v).aclExt = f.aclExt := rfl

theorem fhe_allowThis_nextHandle (f : Core.Fhe) (h : Nat) :
    (Core.Fhe.allowThis f h).nextHandle = f.nextHandle := rfl

theorem fhe_allowThis_hval (f : Core.Fhe) (h : Nat) :
    (Core.Fhe.allowThis f h).hval = f.hval := rfl

theorem fhe_allowThis_aclExt (f : Core.Fhe) (h : Nat) :
    (Core.Fhe.allowThis f h).aclExt = f.aclExt := rfl

theorem fhe_allowThis_self (f : Core.Fhe) (h : Nat) :
    (Core.Fhe.allowThis f h).aclSelf h = true := by
  simp [Core.Fhe.allowThis]

theorem fhe_allow_nextHandle (f : Core.Fhe) (h : Nat) (a : Address) :
    (Core.Fhe.allow f h a).nextHandle = f.nextHandle := rfl

theorem fhe_allow_hval (f : Core.Fhe) (h : Nat) (a : Address) :
    (Core.Fhe.allow f h a).hval = f.hval := rfl

theorem fhe_allow_aclSelf (f : Core.Fhe) (h : Nat) (a : Address) :
    (Core.Fhe.allow f h a).aclSelf = f.aclSelf := rfl

theorem fhe_allow_ext (f : Core.Fhe) (h : Nat) (a : Address) :
    (Core.Fhe.allow f h a).aclExt h a = true := by
  simp [Core.Fhe.allow]

/-! ## Success characterizations of the entry points -/

theorem ex_request_eq_ok {s : Ex.State} {sender : Address} {now blk x y p m c : Nat}
    {r : Nat × Ex.State × List Ex.Event}
    (h : Ex.requestRouteOptimization s sender now blk x y p m c = .ok r) :
    s.paused = false ∧ s.routeCounter + 1 < U32 ∧
    r = Ex.requestBody s sender now blk m c := by
  unfold Ex.requestRouteOptimization at h
  split at h
  · simp at h
  · split at h
    · simp at h
    · rename_i h1 h2
      simp only [Except.ok.injEq] at h
      exact ⟨Bool.not_eq_true _ ▸ h1, by omega, h.symm⟩

theorem ex_process_eq_ok {s : Ex.State} {sender : Address} {now rid : Nat}
    {r : Ex.State × List Ex.Event}
    (h : Ex.processRouteOptimization s sender now rid = .ok r) :
    sender = s.owner ∧ s.paused = false ∧
    (s.routeRequests rid).processed = false ∧
    (s.routeRequests rid).requester ≠ 0 ∧
    (s.routeRequests rid).locationCount < 256 ∧
    r = Ex.processBody s now rid := by
  unfold Ex.processRouteOptimization at h
  split at h
  · simp at h
  · split at h
    · simp at h
    · split at h
      · simp at h
      · split at h
        · simp at h
        · split at h
          · simp at h
          · rename_i h1 h2 h3 h4 h5
            simp only [Except.ok.injEq] at h
            refine ⟨not_not.mp h1, Bool.not_eq_true _ ▸ h2, ?_, h4, by omega, h.symm⟩
            simpa using h3

theorem ex_finalize_eq_ok {s : Ex.State} {sender : Address} {rid : Nat}
    {r : Ex.State × List Ex.Event}
    (h : Ex.finalizeRoute s sender rid = .ok r) :
    sender = s.owner ∧ s.paused = false ∧
    (s.routeRequests rid).processed = true ∧
    r = Ex.finalizeBody s rid := by
  unfold Ex.finalizeRoute at h
  split at h
  · simp at h
  · split at h
    · simp at h
    · split at h
      · simp at h
      · rename_i h1 h2 h3
        simp only [Except.ok.injEq] at h
        exact ⟨not_not.mp h1, Bool.not_eq_true _ ▸ h2, not_not.mp h3, h.symm⟩

theorem ex_markDone_eq_ok {s : Ex.State} {sender : Address} {now rid idx : Nat}
    {r : Ex.State × List Ex.Event}
    (h : Ex.markDeliveryCompleted s sender now rid idx = .ok r) :
    sender = (s.routeRequests rid).requester ∧ s.paused = false ∧
    (s.routeRequests rid).processed = true ∧
    idx < (s.routeRequests rid).locationCount ∧
    (s.routeLocations rid idx).isActive = true ∧
    r = Ex.markDoneBody s now rid idx := by
  unfold Ex.markDeliveryCompleted at h
  split at h
  · simp at h
  · split at h
    · simp at h
    · split at h
      · simp at h
      · split at h
        · simp at h
        · split at h
          · simp at h
          · rename_i h1 h2 h3 h4 h5
            simp only [Except.ok.injEq] at h
            exact ⟨not_not.mp h1, Bool.not_eq_true _ ▸ h2, not_not.mp h3,
              not_not.mp h4, not_not.mp h5, h.symm⟩

theorem ex_addPauser_eq_ok {s : Ex.State} {sender p : Address}
    {s1 : Ex.State} {ev : List Ex.Event}
    (h : Ex.addPauser s sender p = .ok (s1, ev)) :
    sender = s.owner ∧ p ≠ 0 ∧ s.pausers p = false ∧
    s1 = { s with pausers := fun a => if a = p then true else s.pausers a } ∧
    ev = [Ex.Event.PauserAdded p] := by
  unfold Ex.addPauser at h
  split at h
  · simp at h
  · split at h
    · simp at h
    · split at h
      · simp at h
      · rename_i h1 h2 h3
        simp only [Except.ok.injEq, Prod.mk.injEq] at h
        exact ⟨not_not.mp h1, h2, Bool.not_eq_true _ ▸ h3, h.1.symm, h.2.symm⟩

theorem ex_removePauser_eq_ok {s : Ex.State} {sender p : Address}
    {s1 : Ex.State} {ev : List Ex.Event}
    (h : Ex.removePauser s sender p = .ok (s1, ev)) :
    sender = s.owner ∧ s.pausers p = true ∧
    s1 = { s with pausers := fun a => if a = p then false else s.pausers a } ∧
    ev = [Ex.Event.PauserRemoved p] := by
  unfold Ex.removePauser at h
  split at h
  · simp at h
  · split at h
    · simp at h
    · rename_i h1 h2
      simp only [Except.ok.injEq, Prod.mk.injEq] at h
      exact ⟨not_not.mp h1, not_not.mp h2, h.1.symm, h.2.symm⟩

theorem ex_togglePause_eq_ok {s : Ex.State} {sender : Address}
    {s1 : Ex.State} {ev : List Ex.Event}
    (h : Ex.togglePause s sender = .ok (s1, ev)) :
    (s.pausers sender = true ∨ sender = s.owner) ∧
    s1 = { s with paused := ! s.paused } ∧
    ev = [Ex.Event.ContractPausedToggled (! s.paused)] := by
  unfold Ex.togglePause at h
  split at h
  · simp at h
  · rename_i h1
    simp only [Except.ok.injEq, Prod.mk.injEq] at h
    refine ⟨?_, h.1.symm, h.2.symm⟩
    rcases not_and_or.mp h1 with hcase | hcase
    · exact Or.inl (by simpa using not_not.mp hcase)
    · exact Or.inr (not_not.mp hcase)

theorem ex_transferOwnership_eq_ok {s : Ex.State} {sender newOwner : Address}
    {s1 : Ex.State} {ev : List Ex.Event}
    (h : Ex.transferOwnership s sender newOwner = .ok (s1, ev)) :
    sender = s.owner ∧ newOwner ≠ 0 ∧
    s1 = { s with owner := newOwner } ∧
    ev = [Ex.Event.OwnershipTransferred s.owner newOwner] := by
  unfold Ex.transferOwnership at h
  split at h
  · simp at h
  · split at h
    · simp at h
    · rename_i h1 h2
      simp only [Except.ok.injEq, Prod.mk.injEq] at h
      exact ⟨not_not.mp h1, h2, h.1.symm, h.2.symm⟩

theorem core_request_eq_ok {s : Core.State} {sender : Address} {now : Nat}
    {xs ys ps : List Nat} {m c : Nat} {r : Nat × Core.State × List Core.Event}
    (h : Core.requestRouteOptimization s sender now xs ys ps m c = .ok r) :
    xs.length = ys.length ∧ xs.length = ps.length ∧ xs.length ≠ 0 ∧
    s.routeCounter + 1 < U32 ∧ xs.length < 256 ∧
    r = Core.requestBody s sender now xs ys ps m c := by
  unfold Core.requestRouteOptimization at h
  split at h
  · simp at h
  · split at h
    · simp at h
    · split at h
      · simp at h
      · split at h
        · simp at h
        · split at h
          · simp at h
          · rename_i h1 h2 h3 h4 h5
            simp only [Except.ok.injEq] at h
            exact ⟨not_not.mp h1, not_not.mp h2, h3, by omega, by omega, h.symm⟩

theorem core_process_eq_ok {s : Core.State} {sender : Address} {now rid : Nat}
    {r : Core.State × List Core.Event}
    (h : Core.processRouteOptimization s sender now rid = .ok r) :
    sender = s.owner ∧ (s.routeRequests rid).processed = false ∧
    (s.routeRequests rid).requester ≠ 0 ∧
    (s.routeRequests rid).locationCount ≠ 0 ∧
    (s.routeRequests rid).locationCount < 256 ∧
    r = Core.processBody s now rid := by
  unfold Core.processRouteOptimization at h
  split at h
  · simp at h
  · split at h
    · simp at h
    · split at h
      · simp at h
      · split at h
        · simp at h
        · rename_i h1 h2 h3 h4
          rw [not_or] at h4
          simp only [Except.ok.injEq] at h
          refine ⟨not_not.mp h1, ?_, h3, h4.1, by omega, h.symm⟩
          simpa using h2

theorem core_markDone_eq_ok {s : Core.State} {sender : Address} {rid idx : Nat}
    {r : Core.State × List Core.Event}
    (h : Core.markDeliveryCompleted s sender rid idx = .ok r) :
    sender = (s.routeRequests rid).requester ∧
    (s.routeRequests rid).processed = true ∧
    idx < (s.routeRequests rid).locationCount ∧
    (s.routeLocations rid idx).isActive = true ∧
    r = Core.markDoneBody s rid idx := by
  unfold Core.markDeliveryCompleted at h
  split at h
  · simp at h
  · split at h
    · simp at h
    · split at h
      · simp at h
      · split at h
        · simp at h
        · rename_i h1 h2 h3 h4
          simp only [Except.ok.injEq] at h
          exact ⟨not_not.mp h1, not_not.mp h2, not_not.mp h3, not_not.mp h4, h.symm⟩

/-- The FHE engine evolves monotonically: the fresh-handle counter never
decreases, values of already-allocated handles are never overwritten, and
access grants are never revoked. -/
def FheStable (f g : Core.Fhe) : Prop :=
  f.nextHandle ≤ g.nextHandle ∧
  (∀ h, h < f.nextHandle → g.hval h = f.hval h) ∧
  (∀ h, f.aclSelf h = true → g.aclSelf h = true) ∧
  (∀ h a, f.aclExt h a = true → g.aclExt h a = true)

theorem fheStable_refl (f : Core.Fhe) : FheStable f f :=
  ⟨Nat.le_refl _, fun _ _ => rfl, fun _ hh => hh, fun _ _ hh => hh⟩

theorem fheStable_trans {f g k : Core.Fhe}
    (h1 : FheStable f g) (h2 : FheStable g k) : FheStable f k := by
  obtain ⟨a1, b1, c1, d1⟩ := h1
  obtain ⟨a2, b2, c2, d2⟩ := h2
  exact ⟨Nat.le_trans a1 a2,
    fun h hh => (b2 h (Nat.lt_of_lt_of_le hh a1)).trans (b1 h hh),
    fun h hh => c2 h (c1 h hh),
    fun h a hh => d2 h a (d1 h a hh)⟩

theorem fheStable_put (f : Core.Fhe) (v : Nat) : FheStable f (Core.Fhe.put f v) := by
  refine ⟨Nat.le_succ _, fun h hh => ?_, fun h hh => hh, fun h a hh => hh⟩
  simp only [Core.Fhe.put]
  exact if_neg (Nat.ne_of_lt hh)

theorem fheStable_allowThis (f : Core.Fhe) (h : Nat) :
    FheStable f (Core.Fhe.allowThis f h) := by
  refine ⟨Nat.le_refl _, fun _ _ => rfl, fun h2 hh => ?_, fun _ _ hh => hh⟩
  simp only [Core.Fhe.allowThis]
  split <;> simp [hh]

theorem fheStable_allow (f : Core.Fhe) (h : Nat) (a : Address) :
    FheStable f (Core.Fhe.allow f h a) := by
  refine ⟨Nat.le_refl _, fun _ _ => rfl, fun _ hh => hh, fun h2 a2 hh => ?_⟩
  simp only [Core.Fhe.allow]
  split <;> simp [hh]

theorem fheStable_storeLocs (sender : Address) (rid : Nat) :
    ∀ (trips : List ((Nat × Nat) × Nat)) (i : Nat)
      (locs : Nat → Nat → Core.DeliveryLocation) (f : Core.Fhe),
      FheStable f (Core.storeLocs sender rid trips i locs f).2 := by
  intro trips
  induction trips with
  | nil => intro i locs f; exact fheStable_refl f
  | cons t rest ih =>
    intro i locs f
    simp only [Core.storeLocs, Core.Fhe.asEuint32, Core.Fhe.asEuint8]
    refine fheStable_trans ?_ (ih _ _ _)
    refine fheStable_trans ?_ (fheStable_allow _ _ _)
    refine fheStable_trans ?_ (fheStable_allow _ _ _)
    refine fheStable_trans ?_ (fheStable_allow _ _ _)
    refine fheStable_trans ?_ (fheStable_allowThis _ _)
    refine fheStable_trans ?_ (fheStable_allowThis _ _)
    refine fheStable_trans ?_ (fheStable_allowThis _ _)
    refine fheStable_trans ?_ (fheStable_put _ _)
    exact fheStable_trans (fheStable_put _ _) (fheStable_put _ _)

theorem fheStable_calcLoop (rid : Nat) (locs : Nat → Nat → Core.DeliveryLocation) :
    ∀ (fuel i acc : Nat) (f : Core.Fhe),
      FheStable f (Core.calcLoop rid locs i fuel acc f).2 := by
  intro fuel
  induction fuel with
  | zero => intro i acc f; exact fheStable_refl f
  | succ n ih =>
    intro i acc f
    simp only [Core.calcLoop, Core.Fhe.sub32, Core.Fhe.add32]
    refine fheStable_trans ?_ (ih _ _ _)
    refine fheStable_trans ?_ (fheStable_put _ _)
    refine fheStable_trans ?_ (fheStable_put _ _)
    exact fheStable_trans (fheStable_put _ _) (fheStable_put _ _)

/-! ## Concrete demonstration states -/

/-- Run one example-contract call, keeping the old state on failure. -/
def exStepD (s : Ex.State) (c : Ex.Call) : Ex.State :=
  match Ex.step s c with
  | .ok r => r.1
  | .error _ => s

/-- Deployed by address 1, one route requested by address 2. -/
def exC9a : Ex.State := exStepD (Ex.init 1).1 (.request 2 10 5 100 150 1 1000 10)

/-- ... then processed by the owner. -/
def exC9b : Ex.State := exStepD exC9a (.process 1 11 1)

/-- ... then paused by the owner. -/
def exC9c : Ex.State := exStepD exC9b (.toggle 1)

example : exC9b.paused = false := rfl

example : (exC9b.routeRequests 1).processed = true := rfl

example : exC9c.paused = true := rfl

attribute [ext] Core.Fhe Core.State Ex.State

/-! ## C10 -/

/-- C10: `transferOwnership` changes only the `owner` field (in particular the
pauser set is untouched); the constructor registers the deploying owner as a
pauser; no successful call other than `removePauser` for that very address
ever removes an address from the pauser set; and `togglePause` succeeds for
any current pauser.  Hence after a transfer the previous owner, if a pauser
(as the deployer always is unless explicitly removed), can still pause. -/
theorem C10_transfer_keeps_pauser_set :
    (∀ (s s1 : Ex.State) (sender newOwner : Address) (ev : List Ex.Event),
      Ex.transferOwnership s sender newOwner = .ok (s1, ev) →
      s1 = { s with owner := newOwner } ∧ s1.pausers = s.pausers) ∧
    (∀ d : Address, (Ex.init d).1.pausers d = true) ∧
    (∀ (s s1 : Ex.State) (c : Ex.Call) (ev : List Ex.Event) (p : Address),
      Ex.step s c = .ok (s1, ev) → s.pausers p = true →
      (∀ sender, c ≠ Ex.Call.removeP sender p) → s1.pausers p = true) ∧
    (∀ (s : Ex.State) (p : Address), s.pausers p = true →
      Ex.togglePause s p =
        .ok ({ s with paused := ! s.paused },
             [Ex.Event.ContractPausedToggled (! s.paused)])) := by
  refine ⟨?_, ?_, ?_, ?_⟩
  · intro s s1 sender newOwner ev h
    obtain ⟨-, -, h3, -⟩ := ex_transferOwnership_eq_ok h
    exact ⟨h3, by rw [h3]⟩
  · intro d
    simp [Ex.init]
  · intro s s1 c ev p hstep hp hne
    cases c with
    | request sender now blk x y pri m cap =>
      simp only [Ex.step] at hstep
      cases hreq : Ex.requestRouteOptimization s sender now blk x y pri m cap with
      | error e => rw [hreq] at hstep; simp at hstep
      | ok r =>
        rw [hreq] at hstep
        simp only [Except.ok.injEq, Prod.mk.injEq] at hstep
        obtain ⟨-, -, hr⟩ := ex_request_eq_ok hreq
        have h1 : s1 = (Ex.requestBody s sender now blk m cap).2.1 := by
          rw [← hr]; exact hstep.1.symm
        rw [h1]; exact hp
    | process sender now rid =>
      obtain ⟨-, -, -, -, -, hr⟩ := ex_process_eq_ok hstep
      have h1 : s1 = (Ex.processBody s now rid).1 := congrArg Prod.fst hr
      rw [h1]; exact hp
    | finalize sender rid =>
      obtain ⟨-, -, -, hr⟩ := ex_finalize_eq_ok hstep
      have h1 : s1 = (Ex.finalizeBody s rid).1 := congrArg Prod.fst hr
      rw [h1]; exact hp
    | markDone sender now rid idx =>
      obtain ⟨-, -, -, -, -, hr⟩ := ex_markDone_eq_ok hstep
      have h1 : s1 = (Ex.markDoneBody s now rid idx).1 := congrArg Prod.fst hr
      rw [h1]; exact hp
    | addP sender q =>
      obtain ⟨-, -, -, h4, -⟩ := ex_addPauser_eq_ok hstep
      rw [h4]
      by_cases hpq : p = q <;> simp [hpq, hp]
    | removeP sender q =>
      obtain ⟨-, -, h3, -⟩ := ex_removePauser_eq_ok hstep
      have hq : q ≠ p := fun hqq => hne sender (by rw [hqq])
      rw [h3]
      show (if p = q then false else s.pausers p) = true
      rw [if_neg (Ne.symm hq)]
      exact hp
    | toggle sender =>
      obtain ⟨-, h2, -⟩ := ex_togglePause_eq_ok hstep
      rw [h2]; exact hp
    | transferOwn sender newOwner =>
      obtain ⟨-, -, h3, -⟩ := ex_transferOwnership_eq_ok hstep
      rw [h3]; exact hp
  · intro s p hp
    unfold Ex.togglePause
    rw [if_neg]
    simp [hp]

theorem C10_transfer_keeps_pauser_set_witness :
    ({ (Ex.init 7).1 with owner := 9 } : Ex.State).pausers = (Ex.init 7).1.pausers ∧
    Ex.togglePause (Ex.init 7).1 7 =
      .ok ({ (Ex.init 7).1 with paused := ! (Ex.init 7).1.paused },
           [Ex.Event.ContractPausedToggled (! (Ex.init 7).1.paused)]) := by
  constructor
  · exact (C10_transfer_keeps_pauser_set.1 (Ex.init 7).1 _ 7 9 _ rfl).2
  · exact C10_transfer_keeps_pauser_set.2.2.2 (Ex.init 7).1 7 rfl

/-! ## C9 -/

/-- C9 counterexample: in a paused state the owner's `finalizeRoute` on a
processed route does not set `finalized` — it fails with `ContractPaused`,
contradicting the claim's unconditional "otherwise sets finalized = true". -/
theorem C9_counterexample :
    exC9c.owner = 1 ∧ (exC9c.routeRequests 1).processed = true ∧
    Ex.finalizeRoute exC9c 1 1 = .error .ContractPaused := ⟨rfl, rfl, rfl⟩

/-- C9 (amended): `finalizeRoute` is owner-only (`NotAuthorized` otherwise);
for the owner, while the contract is not paused, it fails with
`RouteNotProcessed` iff the route is unprocessed, and otherwise succeeds:
it sets `finalized := true` and emits `RouteFinalized(routeId, 0, 0)`.  A
repeat call is not rejected: it succeeds again, leaves the state exactly as
it was (in particular `finalized` stays `true`), and re-emits the event.
(When paused, even the owner's call fails, with `ContractPaused`.) -/
theorem C9_finalize_behavior (s : Ex.State) (sender : Address) (rid : Nat) :
    (sender ≠ s.owner → Ex.finalizeRoute s sender rid = .error .NotAuthorized) ∧
    (sender = s.owner → s.paused = false →
      (Ex.finalizeRoute s sender rid = .error .RouteNotProcessed ↔
        (s.routeRequests rid).processed = false)) ∧
    (sender = s.owner → s.paused = false →
        (s.routeRequests rid).processed = true →
      Ex.finalizeRoute s sender rid = .ok (Ex.finalizeBody s rid) ∧
      ((Ex.finalizeBody s rid).1.optimizedRoutes rid).finalized = true ∧
      (Ex.finalizeBody s rid).2 = [Ex.Event.RouteFinalized rid 0 0] ∧
      Ex.finalizeRoute (Ex.finalizeBody s rid).1 sender rid =
        .ok ((Ex.finalizeBody s rid).1, [Ex.Event.RouteFinalized rid 0 0])) := by
  refine ⟨?_, ?_, ?_⟩
  · intro h
    simp [Ex.finalizeRoute, h]
  · intro h1 h2
    constructor
    · intro herr
      cases hb : (s.routeRequests rid).processed with
      | false => rfl
      | true => simp [Ex.finalizeRoute, h1, h2, hb] at herr
    · intro hproc
      simp [Ex.finalizeRoute, h1, h2, hproc]
  · intro h1 h2 h3
    refine ⟨by simp [Ex.finalizeRoute, h1, h2, h3], ?_, rfl, ?_⟩
    · simp [Ex.finalizeBody]
    · have hsame : Ex.finalizeBody (Ex.finalizeBody s rid).1 rid =
          ((Ex.finalizeBody s rid).1, [Ex.Event.RouteFinalized rid 0 0]) := by
        unfold Ex.finalizeBody
        refine Prod.ext ?_ rfl
        ext1
        all_goals try rfl
        funext r
        by_cases hr : r = rid <;> simp [hr]
      have hok : Ex.finalizeRoute (Ex.finalizeBody s rid).1 sender rid =
          .ok (Ex.finalizeBody (Ex.finalizeBody s rid).1 rid) := by
        simp [Ex.finalizeRoute, Ex.finalizeBody, h1, h2, h3]
      rw [hok, hsame]

theorem C9_finalize_behavior_witness :
    Ex.finalizeRoute exC9b 1 1 = .ok (Ex.finalizeBody exC9b 1) ∧
    Ex.finalizeRoute (Ex.finalizeBody exC9b 1).1 1 1 =
      .ok ((Ex.finalizeBody exC9b 1).1, [Ex.Event.RouteFinalized 1 0 0]) :=
  ⟨((C9_finalize_behavior exC9b 1 1).2.2 rfl rfl rfl).1,
   ((C9_finalize_behavior exC9b 1 1).2.2 rfl rfl rfl).2.2.2⟩

/-! ## C4 -/

/-- C4 counterexample: while paused, a non-owner's call to
`processRouteOptimization` fails with `NotAuthorized`, not `ContractPaused`
(the `onlyOwner` modifier runs before `whenNotPaused`), contradicting the
claim that every call to it fails with `ContractPaused` when paused. -/
theorem C4_counterexample :
    exC9c.paused = true ∧
    Ex.processRouteOptimization exC9c 2 12 1 = .error .NotAuthorized ∧
    Err.NotAuthorized ≠ Err.ContractPaused := ⟨rfl, rfl, by decide⟩

/-- C4 (amended): when `paused = true`, every call to
`requestRouteOptimization` fails with `ContractPaused`; a call to
`processRouteOptimization` fails with `ContractPaused` when the caller is the
owner and with `NotAuthorized` otherwise; a call to `markDeliveryCompleted`
fails with `ContractPaused` when the caller is the route's requester and with
`NotYourRoute` otherwise (authorization modifiers run before the pause
check); no state is changed.  The read-only queries of this contract
(`getUserRoutes`, `getRouteRequest`) do not read the pause flag and return
the same answers regardless of it; the other two queries of the claim
(`getOptimizedRoute`, `getRouteDataForOwner`) exist on the core contract,
which has no pause flag at all. -/
theorem C4_pause_gating (s : Ex.State) (hp : s.paused = true) :
    (∀ (sender : Address) (now blk x y pri m c : Nat),
      Ex.requestRouteOptimization s sender now blk x y pri m c =
        .error .ContractPaused) ∧
    (∀ (now rid : Nat),
      Ex.processRouteOptimization s s.owner now rid = .error .ContractPaused) ∧
    (∀ (sender : Address) (now rid : Nat), sender ≠ s.owner →
      Ex.processRouteOptimization s sender now rid = .error .NotAuthorized) ∧
    (∀ (now rid idx : Nat),
      Ex.markDeliveryCompleted s (s.routeRequests rid).requester now rid idx =
        .error .ContractPaused) ∧
    (∀ (sender : Address) (now rid idx : Nat),
        sender ≠ (s.routeRequests rid).requester →
      Ex.markDeliveryCompleted s sender now rid idx = .error .NotYourRoute) ∧
    (∀ (b : Bool) (u : Address),
      Ex.getUserRoutes { s with paused := b } u = Ex.getUserRoutes s u) ∧
    (∀ (b : Bool) (rid : Nat),
      Ex.getRouteRequest { s with paused := b } rid = Ex.getRouteRequest s rid) := by
  refine ⟨?_, ?_, ?_, ?_, ?_, ?_, ?_⟩
  · intro sender now blk x y pri m c
    simp [Ex.requestRouteOptimization, hp]
  · intro now rid
    simp [Ex.processRouteOptimization, hp]
  · intro sender now rid hs
    simp [Ex.processRouteOptimization, hs]
  · intro now rid idx
    simp [Ex.markDeliveryCompleted, hp]
  · intro sender now rid idx hs
    simp [Ex.markDeliveryCompleted, hs]
  · intro b u
    rfl
  · intro b rid
    rfl

theorem C4_pause_gating_witness :
    Ex.requestRouteOptimization exC9c 5 20 6 1 2 3 4 5 = .error .ContractPaused ∧
    Ex.processRouteOptimization exC9c exC9c.owner 20 1 = .error .ContractPaused ∧
    Ex.markDeliveryCompleted exC9c (exC9c.routeRequests 1).requester 20 1 0 =
      .error .ContractPaused :=
  ⟨(C4_pause_gating exC9c rfl).1 5 20 6 1 2 3 4 5,
   (C4_pause_gating exC9c rfl).2.1 20 1,
   (C4_pause_gating exC9c rfl).2.2.2.1 20 1 0⟩

/-! ## C2 -/

/-- Counter invariant of the example contract: every slot beyond the current
route counter still holds the mapping default (in particular it is
unprocessed and has the zero requester). -/
def ExCounterInv (s : Ex.State) : Prop :=
  ∀ rid, s.routeCounter < rid → s.routeRequests rid = Ex.defaultReq

theorem ex_counterInv_init (d : Address) : ExCounterInv (Ex.init d).1 :=
  fun _ _ => rfl

theorem ex_counterInv_step {s : Ex.State} {c : Ex.Call} {s1 : Ex.State}
    {ev : List Ex.Event} (hinv : ExCounterInv s)
    (hstep : Ex.step s c = .ok (s1, ev)) : ExCounterInv s1 := by
  intro rid hrid
  cases c with
  | request sender now blk x y pri m cap =>
    simp only [Ex.step] at hstep
    cases hreq : Ex.requestRouteOptimization s sender now blk x y pri m cap with
    | error e => rw [hreq] at hstep; simp at hstep
    | ok r =>
      rw [hreq] at hstep
      simp only [Except.ok.injEq, Prod.mk.injEq] at hstep
      obtain ⟨-, -, hr⟩ := ex_request_eq_ok hreq
      have h1 : s1 = (Ex.requestBody s sender now blk m cap).2.1 := by
        rw [← hr]; exact hstep.1.symm
      rw [h1] at hrid ⊢
      have hcnt : (Ex.requestBody s sender now blk m cap).2.1.routeCounter =
          s.routeCounter + 1 := rfl
      rw [hcnt] at hrid
      show (if rid = s.routeCounter + 1 then _ else s.routeRequests rid) = Ex.defaultReq
      rw [if_neg (by omega)]
      exact hinv rid (by omega)
  | process sender now rid2 =>
    obtain ⟨-, -, -, hreq0, -, hr⟩ := ex_process_eq_ok hstep
    have h1 : s1 = (Ex.processBody s now rid2).1 := congrArg Prod.fst hr
    rw [h1] at hrid ⊢
    have hc : (Ex.processBody s now rid2).1.routeCounter = s.routeCounter := rfl
    rw [hc] at hrid
    have hrid2 : ¬ s.routeCounter < rid2 := by
      intro hlt
      exact hreq0 (by rw [hinv rid2 hlt]; rfl)
    show (if rid = rid2 then _ else s.routeRequests rid) = Ex.defaultReq
    rw [if_neg (by omega)]
    exact hinv rid (by omega)
  | finalize sender rid2 =>
    obtain ⟨-, -, -, hr⟩ := ex_finalize_eq_ok hstep
    have h1 : s1 = (Ex.finalizeBody s rid2).1 := congrArg Prod.fst hr
    rw [h1] at hrid ⊢
    exact hinv rid hrid
  | markDone sender now rid2 idx =>
    obtain ⟨-, -, -, -, -, hr⟩ := ex_markDone_eq_ok hstep
    have h1 : s1 = (Ex.markDoneBody s now rid2 idx).1 := congrArg Prod.fst hr
    rw [h1] at hrid ⊢
    exact hinv rid hrid
  | addP sender q =>
    obtain ⟨-, -, -, h4, -⟩ := ex_addPauser_eq_ok hstep
    rw [h4] at hrid ⊢
    exact hinv rid hrid
  | removeP sender q =>
    obtain ⟨-, -, h3, -⟩ := ex_removePauser_eq_ok hstep
    rw [h3] at hrid ⊢
    exact hinv rid hrid
  | toggle sender =>
    obtain ⟨-, h2, -⟩ := ex_togglePause_eq_ok hstep
    rw [h2] at hrid ⊢
    exact hinv rid hrid
  | transferOwn sender newOwner =>
    obtain ⟨-, -, h3, -⟩ := ex_transferOwnership_eq_ok hstep
    rw [h3] at hrid ⊢
    exact hinv rid hrid

theorem ex_counterInv_reachable {s : Ex.State} (h : Ex.Reachable s) :
    ExCounterInv s := by
  induction h with
  | base d => exact ex_counterInv_init d
  | next hr hstep ih => exact ex_counterInv_step ih hstep

theorem ex_processBody_owner (s : Ex.State) (now rid : Nat) :
    (Ex.processBody s now rid).1.owner = s.owner := rfl

theorem ex_processBody_paused (s : Ex.State) (now rid : Nat) :
    (Ex.processBody s now rid).1.paused = s.paused := rfl

theorem ex_processBody_req_self (s : Ex.State) (now rid : Nat) :
    (Ex.processBody s now rid).1.routeRequests rid =
      { s.routeRequests rid with processed := true, optimizedRouteId := rid } := by
  simp [Ex.processBody]

/-- C2 counterexample: route 1 of `exC9b` has just been successfully
processed, yet a second `processRouteOptimization` call by the non-owner
address 2 fails with `NotAuthorized`, not `RouteAlreadyProcessed` — the
"regardless of caller" part of the claim is false (the `onlyOwner` modifier
runs before the processed check). -/
theorem C2_counterexample :
    (exC9b.routeRequests 1).processed = true ∧
    Ex.processRouteOptimization exC9b 2 12 1 = .error .NotAuthorized ∧
    Err.NotAuthorized ≠ Err.RouteAlreadyProcessed := ⟨rfl, rfl, by decide⟩

/-- C2 (amended): after a successful `processRouteOptimization`, a repeat
call fails for every caller — with `RouteAlreadyProcessed` when the caller is
the owner, and with `NotAuthorized` for any other caller (the authorization
modifier is checked first); moreover no successful operation ever flips a
route's `processed` flag from `true` back to `false` in any reachable state,
so each route is processed at most once. -/
theorem C2_at_most_once_processing :
    (∀ (s : Ex.State) (sender : Address) (now rid : Nat)
        (r : Ex.State × List Ex.Event),
      Ex.processRouteOptimization s sender now rid = .ok r →
      (∀ now2, Ex.processRouteOptimization r.1 sender now2 rid =
        .error .RouteAlreadyProcessed) ∧
      (∀ (c : Address) (now2 : Nat), c ≠ sender →
        Ex.processRouteOptimization r.1 c now2 rid = .error .NotAuthorized)) ∧
    (∀ (s : Ex.State), Ex.Reachable s →
      ∀ (c : Ex.Call) (s1 : Ex.State) (ev : List Ex.Event) (rid : Nat),
        Ex.step s c = .ok (s1, ev) →
        (s.routeRequests rid).processed = true →
        (s1.routeRequests rid).processed = true) := by
  constructor
  · intro s sender now rid r h
    obtain ⟨ho, hpa, -, -, -, hr⟩ := ex_process_eq_ok h
    subst hr
    constructor
    · intro now2
      rw [Ex.processRouteOptimization]
      rw [if_neg (show ¬ sender ≠ (Ex.processBody s now rid).1.owner by
        rw [ex_processBody_owner]; exact fun hh => hh ho)]
      rw [ex_processBody_paused, hpa]
      rw [if_neg (by simp)]
      rw [if_pos (by rw [ex_processBody_req_self])]
    · intro c now2 hc
      rw [Ex.processRouteOptimization]
      rw [if_pos (show c ≠ (Ex.processBody s now rid).1.owner by
        rw [ex_processBody_owner]; exact fun hh => hc (hh.trans ho.symm))]
  · intro s hreach c s1 ev rid hstep hproc
    have hinv := ex_counterInv_reachable hreach
    cases c with
    | request sender now blk x y pri m cap =>
      simp only [Ex.step] at hstep
      cases hreq : Ex.requestRouteOptimization s sender now blk x y pri m cap with
      | error e => rw [hreq] at hstep; simp at hstep
      | ok r =>
        rw [hreq] at hstep
        simp only [Except.ok.injEq, Prod.mk.injEq] at hstep
        obtain ⟨-, -, hr⟩ := ex_request_eq_ok hreq
        have h1 : s1 = (Ex.requestBody s sender now blk m cap).2.1 := by
          rw [← hr]; exact hstep.1.symm
        rw [h1]
        show (if rid = s.routeCounter + 1 then _ else s.routeRequests rid).processed = true
        by_cases hcase : rid = s.routeCounter + 1
        · exfalso
          have := hinv rid (by omega)
          rw [this] at hproc
          simp [Ex.defaultReq] at hproc
        · rw [if_neg hcase]; exact hproc
    | process sender now rid2 =>
      obtain ⟨-, -, -, -, -, hr⟩ := ex_process_eq_ok hstep
      have h1 : s1 = (Ex.processBody s now rid2).1 := congrArg Prod.fst hr
      rw [h1]
      show (if rid = rid2 then _ else s.routeRequests rid).processed = true
      by_cases hcase : rid = rid2
      · subst hcase
        rw [if_pos rfl]
      · rw [if_neg hcase]; exact hproc
    | finalize sender rid2 =>
      obtain ⟨-, -, -, hr⟩ := ex_finalize_eq_ok hstep
      have h1 : s1 = (Ex.finalizeBody s rid2).1 := congrArg Prod.fst hr
      rw [h1]; exact hproc
    | markDone sender now rid2 idx =>
      obtain ⟨-, -, -, -, -, hr⟩ := ex_markDone_eq_ok hstep
      have h1 : s1 = (Ex.markDoneBody s now rid2 idx).1 := congrArg Prod.fst hr
      rw [h1]; exact hproc
    | addP sender q =>
      obtain ⟨-, -, -, h4, -⟩ := ex_addPauser_eq_ok hstep
      rw [h4]; exact hproc
    | removeP sender q =>
      obtain ⟨-, -, h3, -⟩ := ex_removePauser_eq_ok hstep
      rw [h3]; exact hproc
    | toggle sender =>
      obtain ⟨-, h2, -⟩ := ex_togglePause_eq_ok hstep
      rw [h2]; exact hproc
    | transferOwn sender newOwner =>
      obtain ⟨-, -, h3, -⟩ := ex_transferOwnership_eq_ok hstep
      rw [h3]; exact hproc

theorem C2_at_most_once_processing_witness :
    Ex.processRouteOptimization exC9b 1 12 1 = .error .RouteAlreadyProcessed ∧
    Ex.processRouteOptimization exC9b 3 12 1 = .error .NotAuthorized ∧
    (exC9c.routeRequests 1).processed = true := by
  have r1 : Ex.Reachable exC9a :=
    Ex.Reachable.next (Ex.Reachable.base 1)
      (show Ex.step (Ex.init 1).1 (Ex.Call.request 2 10 5 100 150 1 1000 10) =
        .ok (exC9a, [Ex.Event.RouteRequested 1 2 3 10]) from rfl)
  have r2 : Ex.Reachable exC9b :=
    Ex.Reachable.next r1
      (show Ex.step exC9a (Ex.Call.process 1 11 1) =
        .ok (exC9b, [Ex.Event.RouteOptimized 1 2 11]) from rfl)
  refine ⟨(C2_at_most_once_processing.1 exC9a 1 11 1 (Ex.processBody exC9a 11 1) rfl).1 12,
    (C2_at_most_once_processing.1 exC9a 1 11 1 (Ex.processBody exC9a 11 1) rfl).2 3 12
      (by decide),
    C2_at_most_once_processing.2 exC9b r2
      (Ex.Call.toggle 1) exC9c [Ex.Event.ContractPausedToggled true] 1 rfl rfl⟩

/-! ## C7 and C8 -/

/-- Run one core-contract call, keeping the old state on failure. -/
def coreStepD (s : Core.State) (c : Core.Call) : Core.State :=
  match Core.step s c with
  | .ok r => r.1
  | .error _ => s

/-- Core contract deployed by 1; route of two locations (5,5), (3,3)
requested by 2. -/
def coreA : Core.State :=
  coreStepD (Core.init 1) (.request 2 10 [5, 3] [5, 3] [1, 2] 1000 10)

/-- ... then processed by the owner. -/
def coreB : Core.State := coreStepD coreA (.process 1 11 1)

example : (coreA.routeRequests 1).requester = 2 := rfl

example : (coreB.routeRequests 1).processed = true := rfl

/-- C7: `markDeliveryCompleted` of the core contract fails with
`NotYourRoute` for every caller other than the route's requester; for the
requester it fails with `RouteNotProcessed` when unprocessed, with
`InvalidLocationIndex` when `locationIndex >= locationCount`, with
`LocationAlreadyCompleted` when the location is already inactive; otherwise
it only flips that location's `isActive` to `false`, touches no ciphertext
(the FHE engine state and every other storage field are unchanged), emits
`DeliveryCompleted(routeId, locationIndex)`, and an immediate repeat of the
same call fails with `LocationAlreadyCompleted` (so the true-to-false
transition happens at most once per location). -/
theorem C7_markDelivery_behavior (s : Core.State) (sender : Address)
    (rid idx : Nat) :
    (sender ≠ (s.routeRequests rid).requester →
      Core.markDeliveryCompleted s sender rid idx = .error .NotYourRoute) ∧
    (sender = (s.routeRequests rid).requester →
        (s.routeRequests rid).processed = false →
      Core.markDeliveryCompleted s sender rid idx = .error .RouteNotProcessed) ∧
    (sender = (s.routeRequests rid).requester →
        (s.routeRequests rid).processed = true →
        ¬ idx < (s.routeRequests rid).locationCount →
      Core.markDeliveryCompleted s sender rid idx = .error .InvalidLocationIndex) ∧
    (sender = (s.routeRequests rid).requester →
        (s.routeRequests rid).processed = true →
        idx < (s.routeRequests rid).locationCount →
        (s.routeLocations rid idx).isActive = false →
      Core.markDeliveryCompleted s sender rid idx = .error .LocationAlreadyCompleted) ∧
    (sender = (s.routeRequests rid).requester →
        (s.routeRequests rid).processed = true →
        idx < (s.routeRequests rid).locationCount →
        (s.routeLocations rid idx).isActive = true →
      Core.markDeliveryCompleted s sender rid idx = .ok (Core.markDoneBody s rid idx) ∧
      (Core.markDoneBody s rid idx).1.routeLocations rid idx =
        { s.routeLocations rid idx with isActive := false } ∧
      (∀ r j, ¬ (r = rid ∧ j = idx) →
        (Core.markDoneBody s rid idx).1.routeLocations r j = s.routeLocations r j) ∧
      (Core.markDoneBody s rid idx).1.fhe = s.fhe ∧
      (Core.markDoneBody s rid idx).1.routeRequests = s.routeRequests ∧
      (Core.markDoneBody s rid idx).1.optimizedRoutes = s.optimizedRoutes ∧
      (Core.markDoneBody s rid idx).1.owner = s.owner ∧
      (Core.markDoneBody s rid idx).1.routeCounter = s.routeCounter ∧
      (Core.markDoneBody s rid idx).1.userRoutes = s.userRoutes ∧
      (Core.markDoneBody s rid idx).2 = [Core.Event.DeliveryCompleted rid idx] ∧
      Core.markDeliveryCompleted (Core.markDoneBody s rid idx).1 sender rid idx =
        .error .LocationAlreadyCompleted) := by
  refine ⟨?_, ?_, ?_, ?_, ?_⟩
  · intro h1
    simp [Core.markDeliveryCompleted, h1]
  · intro h1 h2
    simp [Core.markDeliveryCompleted, h1, h2]
  · intro h1 h2 h3
    simp [Core.markDeliveryCompleted, h1, h2, h3]
  · intro h1 h2 h3 h4
    simp [Core.markDeliveryCompleted, h1, h2, h3, h4]
  · intro h1 h2 h3 h4
    refine ⟨by simp [Core.markDeliveryCompleted, h1, h2, h3, h4],
      by simp [Core.markDoneBody], ?_, rfl, rfl, rfl, rfl, rfl, rfl, rfl, ?_⟩
    · intro r j hrj
      simp only [Core.markDoneBody]
      rw [if_neg hrj]
    · rw [Core.markDeliveryCompleted]
      rw [if_neg (show ¬ sender ≠
          ((Core.markDoneBody s rid idx).1.routeRequests rid).requester by
        exact fun hh => hh h1)]
      rw [if_neg (show ¬ ¬ ((Core.markDoneBody s rid idx).1.routeRequests rid).processed by
        simp [Core.markDoneBody, h2])]
      rw [if_neg (show ¬ ¬ idx <
          ((Core.markDoneBody s rid idx).1.routeRequests rid).locationCount by
        exact fun hh => hh h3)]
      rw [if_pos (show ¬ ((Core.markDoneBody s rid idx).1.routeLocations rid idx).isActive by
        simp [Core.markDoneBody])]

theorem C7_markDelivery_behavior_witness :
    Core.markDeliveryCompleted coreB 2 1 0 = .ok (Core.markDoneBody coreB 1 0) ∧
    Core.markDeliveryCompleted (Core.markDoneBody coreB 1 0).1 2 1 0 =
      .error .LocationAlreadyCompleted ∧
    Core.markDeliveryCompleted coreB 5 1 0 = .error .NotYourRoute :=
  ⟨((C7_markDelivery_behavior coreB 2 1 0).2.2.2.2 rfl rfl (by decide) rfl).1,
   ((C7_markDelivery_behavior coreB 2 1 0).2.2.2.2 rfl rfl (by decide) rfl).2.2.2.2.2.2.2.2.2.2,
   (C7_markDelivery_behavior coreB 5 1 0).1 (by decide)⟩

/-- C8: whenever the core `processRouteOptimization` succeeds, the stored
`locationOrder` is exactly the identity permutation `[0, ..., n-1]` of the
route's `locationCount` `n` (which processing leaves unchanged); in
particular its length equals `locationCount`. -/
theorem C8_identity_location_order (s : Core.State) (sender : Address)
    (now rid : Nat) (r : Core.State × List Core.Event)
    (h : Core.processRouteOptimization s sender now rid = .ok r) :
    (r.1.optimizedRoutes rid).locationOrder =
      List.range (s.routeRequests rid).locationCount ∧
    (r.1.routeRequests rid).locationCount = (s.routeRequests rid).locationCount ∧
    (r.1.optimizedRoutes rid).locationOrder.length =
      (s.routeRequests rid).locationCount := by
  obtain ⟨-, -, -, -, -, hr⟩ := core_process_eq_ok h
  have h1 : r.1 = (Core.processBody s now rid).1 := congrArg Prod.fst hr
  rw [h1]
  refine ⟨by simp [Core.processBody], by simp [Core.processBody], ?_⟩
  simp [Core.processBody]

theorem C8_identity_location_order_witness :
    (coreB.optimizedRoutes 1).locationOrder = [0, 1] ∧
    (coreB.optimizedRoutes 1).locationOrder.length = 2 := by
  have h := C8_identity_location_order coreA 1 11 1 (Core.processBody coreA 11 1) rfl
  exact ⟨h.1, h.2.2⟩

/-! ## C3 -/

theorem core_requestBody_fst (s : Core.State) (sender : Address) (now : Nat)
    (xs ys ps : List Nat) (m c : Nat) :
    (Core.requestBody s sender now xs ys ps m c).1 = s.routeCounter + 1 := rfl

theorem core_requestBody_counter (s : Core.State) (sender : Address) (now : Nat)
    (xs ys ps : List Nat) (m c : Nat) :
    (Core.requestBody s sender now xs ys ps m c).2.1.routeCounter =
      s.routeCounter + 1 := rfl

theorem core_requestBody_requester (s : Core.State) (sender : Address) (now : Nat)
    (xs ys ps : List Nat) (m c : Nat) (rid : Nat) :
    ((Core.requestBody s sender now xs ys ps m c).2.1.routeRequests rid).requester =
      if rid = s.routeCounter + 1 then sender
      else (s.routeRequests rid).requester := by
  by_cases hcase : rid = s.routeCounter + 1 <;>
    simp [Core.requestBody, hcase]

theorem core_processBody_counter (s : Core.State) (now rid : Nat) :
    (Core.processBody s now rid).1.routeCounter = s.routeCounter := rfl

theorem core_processBody_requester (s : Core.State) (now rid2 rid : Nat) :
    ((Core.processBody s now rid2).1.routeRequests rid).requester =
      (s.routeRequests rid).requester := by
  by_cases hcase : rid = rid2 <;> simp [Core.processBody, hcase]

/-- Identifier invariant of the core contract: every slot holding a real
request (nonzero requester) has an id between 1 and the current counter. -/
def CoreIdInv (s : Core.State) : Prop :=
  ∀ rid, (s.routeRequests rid).requester ≠ 0 → 1 ≤ rid ∧ rid ≤ s.routeCounter

theorem core_idInv_step {s : Core.State} {c : Core.Call} {s1 : Core.State}
    {ev : List Core.Event} (hinv : CoreIdInv s)
    (hstep : Core.step s c = .ok (s1, ev)) : CoreIdInv s1 := by
  intro rid hrid
  cases c with
  | request sender now xs ys ps m cap =>
    simp only [Core.step] at hstep
    cases hreq : Core.requestRouteOptimization s sender now xs ys ps m cap with
    | error e => rw [hreq] at hstep; simp at hstep
    | ok r =>
      rw [hreq] at hstep
      simp only [Except.ok.injEq, Prod.mk.injEq] at hstep
      obtain ⟨-, -, -, -, -, hr⟩ := core_request_eq_ok hreq
      have h1 : s1 = (Core.requestBody s sender now xs ys ps m cap).2.1 := by
        rw [← hr]; exact hstep.1.symm
      rw [h1] at hrid ⊢
      rw [core_requestBody_counter]
      rw [core_requestBody_requester] at hrid
      by_cases hcase : rid = s.routeCounter + 1
      · omega
      · rw [if_neg hcase] at hrid
        have := hinv rid hrid
        omega
  | process sender now rid2 =>
    obtain ⟨-, -, -, -, -, hr⟩ := core_process_eq_ok hstep
    have h1 : s1 = (Core.processBody s now rid2).1 := congrArg Prod.fst hr
    rw [h1] at hrid ⊢
    rw [core_processBody_counter]
    rw [core_processBody_requester] at hrid
    exact hinv rid hrid
  | markDone sender rid2 idx =>
    obtain ⟨-, -, -, -, hr⟩ := core_markDone_eq_ok hstep
    have h1 : s1 = (Core.markDoneBody s rid2 idx).1 := congrArg Prod.fst hr
    rw [h1] at hrid ⊢
    exact hinv rid hrid

theorem core_idInv_reachable {s : Core.State} (h : Core.Reachable s) :
    CoreIdInv s := by
  induction h with
  | base d =>
    intro rid hrid
    exact absurd rfl hrid
  | next hr hstep ih => exact core_idInv_step ih hstep

/-- C3: each successful core `requestRouteOptimization` returns exactly the
pre-call counter plus one and bumps the counter to that value (the requester
being recorded in the fresh slot); the counter never decreases across any
successful call; in every reachable state each stored request's id lies
between 1 and the current counter (ids are unique per slot by construction
of the storage mapping); the slot for the next id is always free, so ids are
never reused; and no operation ever changes the requester recorded for an
existing route. -/
theorem C3_monotonic_ids :
    (∀ (s : Core.State) (sender : Address) (now : Nat) (xs ys ps : List Nat)
        (m c : Nat) (r : Nat × Core.State × List Core.Event),
      Core.requestRouteOptimization s sender now xs ys ps m c = .ok r →
      r.1 = s.routeCounter + 1 ∧
      r.2.1.routeCounter = s.routeCounter + 1 ∧
      (r.2.1.routeRequests r.1).requester = sender) ∧
    (∀ (s : Core.State) (c : Core.Call) (s1 : Core.State) (ev : List Core.Event),
      Core.step s c = .ok (s1, ev) → s.routeCounter ≤ s1.routeCounter) ∧
    (∀ (s : Core.State), Core.Reachable s →
      ∀ rid, (s.routeRequests rid).requester ≠ 0 →
        1 ≤ rid ∧ rid ≤ s.routeCounter) ∧
    (∀ (s : Core.State), Core.Reachable s →
      (s.routeRequests (s.routeCounter + 1)).requester = 0) ∧
    (∀ (s : Core.State) (c : Core.Call) (s1 : Core.State) (ev : List Core.Event),
      Core.Reachable s → Core.step s c = .ok (s1, ev) →
      ∀ rid, (s.routeRequests rid).requester ≠ 0 →
        (s1.routeRequests rid).requester = (s.routeRequests rid).requester) := by
  refine ⟨?_, ?_, ?_, ?_, ?_⟩
  · intro s sender now xs ys ps m c r h
    obtain ⟨-, -, -, -, -, hr⟩ := core_request_eq_ok h
    subst hr
    refine ⟨rfl, rfl, ?_⟩
    rw [core_requestBody_fst, core_requestBody_requester, if_pos rfl]
  · intro s c s1 ev hstep
    cases c with
    | request sender now xs ys ps m cap =>
      simp only [Core.step] at hstep
      cases hreq : Core.requestRouteOptimization s sender now xs ys ps m cap with
      | error e => rw [hreq] at hstep; simp at hstep
      | ok r =>
        rw [hreq] at hstep
        simp only [Except.ok.injEq, Prod.mk.injEq] at hstep
        obtain ⟨-, -, -, -, -, hr⟩ := core_request_eq_ok hreq
        have h1 : s1 = (Core.requestBody s sender now xs ys ps m cap).2.1 := by
          rw [← hr]; exact hstep.1.symm
        rw [h1, core_requestBody_counter]
        omega
    | process sender now rid2 =>
      obtain ⟨-, -, -, -, -, hr⟩ := core_process_eq_ok hstep
      have h1 : s1 = (Core.processBody s now rid2).1 := congrArg Prod.fst hr
      rw [h1, core_processBody_counter]
    | markDone sender rid2 idx =>
      obtain ⟨-, -, -, -, hr⟩ := core_markDone_eq_ok hstep
      have h1 : s1 = (Core.markDoneBody s rid2 idx).1 := congrArg Prod.fst hr
      rw [h1]
      exact Nat.le_refl _
  · intro s hreach
    exact core_idInv_reachable hreach
  · intro s hreach
    by_contra hne
    have := core_idInv_reachable hreach _ hne
    omega
  · intro s c s1 ev hreach hstep rid hrid
    have hinv := core_idInv_reachable hreach
    cases c with
    | request sender now xs ys ps m cap =>
      simp only [Core.step] at hstep
      cases hreq : Core.requestRouteOptimization s sender now xs ys ps m cap with
      | error e => rw [hreq] at hstep; simp at hstep
      | ok r =>
        rw [hreq] at hstep
        simp only [Except.ok.injEq, Prod.mk.injEq] at hstep
        obtain ⟨-, -, -, -, -, hr⟩ := core_request_eq_ok hreq
        have h1 : s1 = (Core.requestBody s sender now xs ys ps m cap).2.1 := by
          rw [← hr]; exact hstep.1.symm
        rw [h1, core_requestBody_requester]
        have hb := hinv rid hrid
        rw [if_neg (by omega)]
    | process sender now rid2 =>
      obtain ⟨-, -, -, -, -, hr⟩ := core_process_eq_ok hstep
      have h1 : s1 = (Core.processBody s now rid2).1 := congrArg Prod.fst hr
      rw [h1, core_processBody_requester]
    | markDone sender rid2 idx =>
      obtain ⟨-, -, -, -, hr⟩ := core_markDone_eq_ok hstep
      have h1 : s1 = (Core.markDoneBody s rid2 idx).1 := congrArg Prod.fst hr
      rw [h1]
      exact rfl

theorem C3_monotonic_ids_witness :
    Core.requestRouteOptimization (Core.init 1) 2 10 [5, 3] [5, 3] [1, 2] 1000 10 =
      .ok (Core.requestBody (Core.init 1) 2 10 [5, 3] [5, 3] [1, 2] 1000 10) ∧
    (Core.requestBody (Core.init 1) 2 10 [5, 3] [5, 3] [1, 2] 1000 10).1 = 1 ∧
    coreA.routeCounter = 1 ∧
    (coreA.routeRequests 2).requester = 0 := by
  have hreach : Core.Reachable coreA :=
    Core.Reachable.next (Core.Reachable.base 1)
      (show Core.step (Core.init 1) (Core.Call.request 2 10 [5, 3] [5, 3] [1, 2] 1000 10) =
        .ok (coreA, [Core.Event.RouteRequested 1 2 2]) from rfl)
  have h1 := (C3_monotonic_ids.1 (Core.init 1) 2 10 [5, 3] [5, 3] [1, 2] 1000 10
    (Core.requestBody (Core.init 1) 2 10 [5, 3] [5, 3] [1, 2] 1000 10) rfl)
  have h4 := C3_monotonic_ids.2.2.2.1 coreA hreach
  exact ⟨rfl, h1.1, rfl, by simpa using h4⟩

/-! ## C5 -/

theorem fheStable_aclSelf {f g : Core.Fhe} {x : Nat}
    (hs : FheStable f g) (h : f.aclSelf x = true) : g.aclSelf x = true :=
  hs.2.2.1 x h

theorem fheStable_aclExt {f g : Core.Fhe} {x : Nat} {a : Address}
    (hs : FheStable f g) (h : f.aclExt x a = true) : g.aclExt x a = true :=
  hs.2.2.2 x a h

theorem storeLocs_untouched (sender : Address) (rid : Nat) :
    ∀ (trips : List ((Nat × Nat) × Nat)) (i : Nat)
      (locs : Nat → Nat → Core.DeliveryLocation) (f : Core.Fhe) (r j : Nat),
      (r ≠ rid ∨ j < i ∨ i + trips.length ≤ j) →
      (Core.storeLocs sender rid trips i locs f).1 r j = locs r j := by
  intro trips
  induction trips with
  | nil => intro i locs f r j _; rfl
  | cons t rest ih =>
    intro i locs f r j hcond
    have hcond2 : r ≠ rid ∨ j < i + 1 ∨ (i + 1) + rest.length ≤ j := by
      rcases hcond with h | h | h
      · exact Or.inl h
      · exact Or.inr (Or.inl (by omega))
      · simp only [List.length_cons] at h
        exact Or.inr (Or.inr (by omega))
    have hji : ¬ (r = rid ∧ j = i) := by
      rcases hcond with h | h | h
      · exact fun hh => h hh.1
      · exact fun hh => by omega
      · simp only [List.length_cons] at h
        exact fun hh => by omega
    simp only [Core.storeLocs]
    rw [ih _ _ _ r j hcond2]
    exact if_neg hji

theorem storeLocs_grants (sender : Address) (rid : Nat) :
    ∀ (trips : List ((Nat × Nat) × Nat)) (i : Nat)
      (locs : Nat → Nat → Core.DeliveryLocation) (f : Core.Fhe) (j : Nat),
      i ≤ j → j < i + trips.length →
      ((Core.storeLocs sender rid trips i locs f).1 rid j).isActive = true ∧
      (Core.storeLocs sender rid trips i locs f).2.aclSelf
        ((Core.storeLocs sender rid trips i locs f).1 rid j).encryptedX = true ∧
      (Core.storeLocs sender rid trips i locs f).2.aclExt
        ((Core.storeLocs sender rid trips i locs f).1 rid j).encryptedX sender = true ∧
      (Core.storeLocs sender rid trips i locs f).2.aclSelf
        ((Core.storeLocs sender rid trips i locs f).1 rid j).encryptedY = true ∧
      (Core.storeLocs sender rid trips i locs f).2.aclExt
        ((Core.storeLocs sender rid trips i locs f).1 rid j).encryptedY sender = true ∧
      (Core.storeLocs sender rid trips i locs f).2.aclSelf
        ((Core.storeLocs sender rid trips i locs f).1 rid j).priority = true ∧
      (Core.storeLocs sender rid trips i locs f).2.aclExt
        ((Core.storeLocs sender rid trips i locs f).1 rid j).priority sender = true := by
  intro trips
  induction trips with
  | nil =>
    intro i locs f j hij hlt
    simp only [List.length_nil] at hlt
    omega
  | cons t rest ih =>
    intro i locs f j hij hlt
    by_cases hji : j = i
    · subst hji
      simp only [Core.storeLocs]
      rw [storeLocs_untouched sender rid rest (j + 1) _ _ rid j
        (Or.inr (Or.inl (by omega)))]
      rw [if_pos ⟨rfl, rfl⟩]
      set f3 := (Core.Fhe.asEuint8
        ((Core.Fhe.asEuint32 ((Core.Fhe.asEuint32 f t.1.1).2) t.1.2).2) t.2).2 with hf3
      set hx := (Core.Fhe.asEuint32 f t.1.1).1
      set hy := (Core.Fhe.asEuint32 ((Core.Fhe.asEuint32 f t.1.1).2) t.1.2).1
      set hp := (Core.Fhe.asEuint8
        ((Core.Fhe.asEuint32 ((Core.Fhe.asEuint32 f t.1.1).2) t.1.2).2) t.2).1
      have hsx : (Core.Fhe.allowThis f3 hx).aclSelf hx = true := fhe_allowThis_self f3 hx
      have hsy : (Core.Fhe.allowThis (Core.Fhe.allowThis f3 hx) hy).aclSelf hy = true :=
        fhe_allowThis_self _ hy
      have hsp : (Core.Fhe.allowThis (Core.Fhe.allowThis (Core.Fhe.allowThis f3 hx) hy)
          hp).aclSelf hp = true := fhe_allowThis_self _ hp
      have hex : (Core.Fhe.allow (Core.Fhe.allowThis (Core.Fhe.allowThis
          (Core.Fhe.allowThis f3 hx) hy) hp) hx sender).aclExt hx sender = true :=
        fhe_allow_ext _ hx sender
      have hey : (Core.Fhe.allow (Core.Fhe.allow (Core.Fhe.allowThis (Core.Fhe.allowThis
          (Core.Fhe.allowThis f3 hx) hy) hp) hx sender) hy sender).aclExt hy sender = true :=
        fhe_allow_ext _ hy sender
      have hep : (Core.Fhe.allow (Core.Fhe.allow (Core.Fhe.allow (Core.Fhe.allowThis
          (Core.Fhe.allowThis (Core.Fhe.allowThis f3 hx) hy) hp) hx sender) hy sender)
          hp sender).aclExt hp sender = true := fhe_allow_ext _ hp sender
      refine ⟨rfl, ?_, ?_, ?_, ?_, ?_, ?_⟩
      · refine fheStable_aclSelf (fheStable_storeLocs sender rid rest (j + 1) _ _) ?_
        refine fheStable_aclSelf (fheStable_allow _ _ _) ?_
        refine fheStable_aclSelf (fheStable_allow _ _ _) ?_
        refine fheStable_aclSelf (fheStable_allow _ _ _) ?_
        refine fheStable_aclSelf (fheStable_allowThis _ _) ?_
        exact fheStable_aclSelf (fheStable_allowThis _ _) hsx
      · refine fheStable_aclExt (fheStable_storeLocs sender rid rest (j + 1) _ _) ?_
        refine fheStable_aclExt (fheStable_allow _ _ _) ?_
        exact fheStable_aclExt (fheStable_allow _ _ _) hex
      · refine fheStable_aclSelf (fheStable_storeLocs sender rid rest (j + 1) _ _) ?_
        refine fheStable_aclSelf (fheStable_allow _ _ _) ?_
        refine fheStable_aclSelf (fheStable_allow _ _ _) ?_
        refine fheStable_aclSelf (fheStable_allow _ _ _) ?_
        exact fheStable_aclSelf (fheStable_allowThis _ _) hsy
      · refine fheStable_aclExt (fheStable_storeLocs sender rid rest (j + 1) _ _) ?_
        exact fheStable_aclExt (fheStable_allow _ _ _) hey
      · refine fheStable_aclSelf (fheStable_storeLocs sender rid rest (j + 1) _ _) ?_
        refine fheStable_aclSelf (fheStable_allow _ _ _) ?_
        refine fheStable_aclSelf (fheStable_allow _ _ _) ?_
        exact fheStable_aclSelf (fheStable_allow _ _ _) hsp
      · exact fheStable_aclExt (fheStable_storeLocs sender rid rest (j + 1) _ _) hep
    · have hij2 : i + 1 ≤ j := by omega
      have hlt2 : j < (i + 1) + rest.length := by
        simp only [List.length_cons] at hlt
        omega
      simp only [Core.storeLocs]
      exact ih (i + 1) _ _ j hij2 hlt2

theorem core_requestBody_fhe_stable (s : Core.State) (sender : Address)
    (now : Nat) (xs ys ps : List Nat) (m c : Nat) :
    FheStable s.fhe (Core.requestBody s sender now xs ys ps m c).2.1.fhe := by
  simp only [Core.requestBody, Core.Fhe.asEuint32, Core.Fhe.asEuint8]
  refine fheStable_trans ?_ (fheStable_allow _ _ _)
  refine fheStable_trans ?_ (fheStable_allow _ _ _)
  refine fheStable_trans ?_ (fheStable_allowThis _ _)
  refine fheStable_trans ?_ (fheStable_allowThis _ _)
  refine fheStable_trans ?_ (fheStable_storeLocs _ _ _ _ _ _)
  exact fheStable_trans (fheStable_put _ _) (fheStable_put _ _)

theorem core_processBody_fhe_stable (s : Core.State) (now rid : Nat) :
    FheStable s.fhe (Core.processBody s now rid).1.fhe := by
  simp only [Core.processBody, Core.Fhe.asEuint32, Core.Fhe.asEuint8, Core.Fhe.mul32]
  refine fheStable_trans ?_ (fheStable_allow _ _ _)
  refine fheStable_trans ?_ (fheStable_allow _ _ _)
  refine fheStable_trans ?_ (fheStable_allowThis _ _)
  refine fheStable_trans ?_ (fheStable_allowThis _ _)
  refine fheStable_trans ?_ (fheStable_put _ _)
  refine fheStable_trans ?_ (fheStable_put _ _)
  refine fheStable_trans ?_ (fheStable_put _ _)
  refine fheStable_trans ?_ (fheStable_put _ _)
  refine fheStable_trans ?_ (fheStable_calcLoop _ _ _ _ _ _)
  exact fheStable_put _ _

/-- All access grants recorded for one stored route: the two constraint
ciphertexts and all location ciphertexts are granted to the contract and to
the route's requester, and once the route is processed the two result
ciphertexts are as well. -/
def RouteGranted (s : Core.State) (rid : Nat) : Prop :=
  (s.fhe.aclSelf (s.routeRequests rid).maxTravelDistance = true ∧
   s.fhe.aclExt (s.routeRequests rid).maxTravelDistance
     (s.routeRequests rid).requester = true) ∧
  (s.fhe.aclSelf (s.routeRequests rid).vehicleCapacity = true ∧
   s.fhe.aclExt (s.routeRequests rid).vehicleCapacity
     (s.routeRequests rid).requester = true) ∧
  (∀ i, i < (s.routeRequests rid).locationCount →
    (s.fhe.aclSelf (s.routeLocations rid i).encryptedX = true ∧
     s.fhe.aclExt (s.routeLocations rid i).encryptedX
       (s.routeRequests rid).requester = true) ∧
    (s.fhe.aclSelf (s.routeLocations rid i).encryptedY = true ∧
     s.fhe.aclExt (s.routeLocations rid i).encryptedY
       (s.routeRequests rid).requester = true) ∧
    (s.fhe.aclSelf (s.routeLocations rid i).priority = true ∧
     s.fhe.aclExt (s.routeLocations rid i).priority
       (s.routeRequests rid).requester = true)) ∧
  ((s.routeRequests rid).processed = true →
    (s.fhe.aclSelf (s.optimizedRoutes rid).totalDistance = true ∧
     s.fhe.aclExt (s.optimizedRoutes rid).totalDistance
       (s.routeRequests rid).requester = true) ∧
    (s.fhe.aclSelf (s.optimizedRoutes rid).estimatedTime = true ∧
     s.fhe.aclExt (s.optimizedRoutes rid).estimatedTime
       (s.routeRequests rid).requester = true))

/-- The grant invariant: every stored route is fully granted. -/
def GrantInv (s : Core.State) : Prop :=
  ∀ rid, (s.routeRequests rid).requester ≠ 0 → RouteGranted s rid

theorem core_requestBody_req_at (s : Core.State) (sender : Address) (now : Nat)
    (xs ys ps : List Nat) (m c : Nat) (rid : Nat) :
    (Core.requestBody s sender now xs ys ps m c).2.1.routeRequests rid =
      if rid = s.routeCounter + 1 then
        ⟨sender, xs.length, s.fhe.nextHandle, s.fhe.nextHandle + 1, false, 0, now⟩
      else s.routeRequests rid := rfl

theorem core_requestBody_locations (s : Core.State) (sender : Address) (now : Nat)
    (xs ys ps : List Nat) (m c : Nat) :
    (Core.requestBody s sender now xs ys ps m c).2.1.routeLocations =
      (Core.storeLocs sender (s.routeCounter + 1) ((xs.zip ys).zip ps) 0
        s.routeLocations ((s.fhe.put (m % U32)).put (c % U8))).1 := rfl

theorem core_requestBody_opts (s : Core.State) (sender : Address) (now : Nat)
    (xs ys ps : List Nat) (m c : Nat) :
    (Core.requestBody s sender now xs ys ps m c).2.1.optimizedRoutes =
      s.optimizedRoutes := rfl

theorem core_requestBody_fhe (s : Core.State) (sender : Address) (now : Nat)
    (xs ys ps : List Nat) (m c : Nat) :
    (Core.requestBody s sender now xs ys ps m c).2.1.fhe =
      Core.Fhe.allow (Core.Fhe.allow (Core.Fhe.allowThis (Core.Fhe.allowThis
        (Core.storeLocs sender (s.routeCounter + 1) ((xs.zip ys).zip ps) 0
          s.routeLocations ((s.fhe.put (m % U32)).put (c % U8))).2
        s.fhe.nextHandle) (s.fhe.nextHandle + 1)) s.fhe.nextHandle sender)
        (s.fhe.nextHandle + 1) sender := rfl

theorem core_requestBody_constraints_granted (s : Core.State) (sender : Address)
    (now : Nat) (xs ys ps : List Nat) (m c : Nat) :
    (Core.requestBody s sender now xs ys ps m c).2.1.fhe.aclSelf
      s.fhe.nextHandle = true ∧
    (Core.requestBody s sender now xs ys ps m c).2.1.fhe.aclExt
      s.fhe.nextHandle sender = true ∧
    (Core.requestBody s sender now xs ys ps m c).2.1.fhe.aclSelf
      (s.fhe.nextHandle + 1) = true ∧
    (Core.requestBody s sender now xs ys ps m c).2.1.fhe.aclExt
      (s.fhe.nextHandle + 1) sender = true := by
  rw [core_requestBody_fhe]
  refine ⟨?_, ?_, ?_, ?_⟩
  · refine fheStable_aclSelf (fheStable_allow _ _ _) ?_
    refine fheStable_aclSelf (fheStable_allow _ _ _) ?_
    refine fheStable_aclSelf (fheStable_allowThis _ _) ?_
    exact fhe_allowThis_self _ _
  · refine fheStable_aclExt (fheStable_allow _ _ _) ?_
    exact fhe_allow_ext _ _ _
  · refine fheStable_aclSelf (fheStable_allow _ _ _) ?_
    refine fheStable_aclSelf (fheStable_allow _ _ _) ?_
    exact fhe_allowThis_self _ _
  · exact fhe_allow_ext _ _ _

theorem core_processBody_req_at (s : Core.State) (now rid : Nat) (r : Nat) :
    (Core.processBody s now rid).1.routeRequests r =
      if r = rid then
        { s.routeRequests rid with processed := true, optimizedRouteId := rid }
      else s.routeRequests r := rfl

theorem core_processBody_locations (s : Core.State) (now rid : Nat) :
    (Core.processBody s now rid).1.routeLocations = s.routeLocations := rfl

theorem core_processBody_opt_other (s : Core.State) (now rid : Nat) {r : Nat}
    (h : r ≠ rid) :
    (Core.processBody s now rid).1.optimizedRoutes r = s.optimizedRoutes r := by
  simp [Core.processBody, h]

theorem core_processBody_result_granted (s : Core.State) (now rid : Nat) :
    (Core.processBody s now rid).1.fhe.aclSelf
      ((Core.processBody s now rid).1.optimizedRoutes rid).totalDistance = true ∧
    (Core.processBody s now rid).1.fhe.aclExt
      ((Core.processBody s now rid).1.optimizedRoutes rid).totalDistance
      (s.routeRequests rid).requester = true ∧
    (Core.processBody s now rid).1.fhe.aclSelf
      ((Core.processBody s now rid).1.optimizedRoutes rid).estimatedTime = true ∧
    (Core.processBody s now rid).1.fhe.aclExt
      ((Core.processBody s now rid).1.optimizedRoutes rid).estimatedTime
      (s.routeRequests rid).requester = true := by
  simp only [Core.processBody]
  refine ⟨?_, ?_, ?_, ?_⟩
  · refine fheStable_aclSelf (fheStable_allow _ _ _) ?_
    refine fheStable_aclSelf (fheStable_allow _ _ _) ?_
    refine fheStable_aclSelf (fheStable_allowThis _ _) ?_
    exact fhe_allowThis_self _ _
  · refine fheStable_aclExt (fheStable_allow _ _ _) ?_
    exact fhe_allow_ext _ _ _
  · refine fheStable_aclSelf (fheStable_allow _ _ _) ?_
    refine fheStable_aclSelf (fheStable_allow _ _ _) ?_
    exact fhe_allowThis_self _ _
  · exact fhe_allow_ext _ _ _

theorem core_markDoneBody_handles (s : Core.State) (rid2 idx : Nat) (r j : Nat) :
    ((Core.markDoneBody s rid2 idx).1.routeLocations r j).encryptedX =
      (s.routeLocations r j).encryptedX ∧
    ((Core.markDoneBody s rid2 idx).1.routeLocations r j).encryptedY =
      (s.routeLocations r j).encryptedY ∧
    ((Core.markDoneBody s rid2 idx).1.routeLocations r j).priority =
      (s.routeLocations r j).priority := by
  by_cases h : r = rid2 ∧ j = idx
  · obtain ⟨h1, h2⟩ := h
    subst h1; subst h2
    simp [Core.markDoneBody]
  · simp only [Core.markDoneBody]
    rw [if_neg h]
    exact ⟨rfl, rfl, rfl⟩

/-- Transport of the non-result part of `RouteGranted` along a state change
that keeps the route's record and location handles and only grows the ACL. -/
theorem routeGranted_base_mono {s t : Core.State} {rid : Nat}
    (hst : FheStable s.fhe t.fhe)
    (hreq : (t.routeRequests rid).requester = (s.routeRequests rid).requester)
    (hmax : (t.routeRequests rid).maxTravelDistance =
      (s.routeRequests rid).maxTravelDistance)
    (hcap : (t.routeRequests rid).vehicleCapacity =
      (s.routeRequests rid).vehicleCapacity)
    (hcnt : (t.routeRequests rid).locationCount =
      (s.routeRequests rid).locationCount)
    (hlX : ∀ i, i < (s.routeRequests rid).locationCount →
      (t.routeLocations rid i).encryptedX = (s.routeLocations rid i).encryptedX)
    (hlY : ∀ i, i < (s.routeRequests rid).locationCount →
      (t.routeLocations rid i).encryptedY = (s.routeLocations rid i).encryptedY)
    (hlP : ∀ i, i < (s.routeRequests rid).locationCount →
      (t.routeLocations rid i).priority = (s.routeLocations rid i).priority)
    (h : RouteGranted s rid) :
    (t.fhe.aclSelf (t.routeRequests rid).maxTravelDistance = true ∧
     t.fhe.aclExt (t.routeRequests rid).maxTravelDistance
       (t.routeRequests rid).requester = true) ∧
    (t.fhe.aclSelf (t.routeRequests rid).vehicleCapacity = true ∧
     t.fhe.aclExt (t.routeRequests rid).vehicleCapacity
       (t.routeRequests rid).requester = true) ∧
    (∀ i, i < (t.routeRequests rid).locationCount →
      (t.fhe.aclSelf (t.routeLocations rid i).encryptedX = true ∧
       t.fhe.aclExt (t.routeLocations rid i).encryptedX
         (t.routeRequests rid).requester = true) ∧
      (t.fhe.aclSelf (t.routeLocations rid i).encryptedY = true ∧
       t.fhe.aclExt (t.routeLocations rid i).encryptedY
         (t.routeRequests rid).requester = true) ∧
      (t.fhe.aclSelf (t.routeLocations rid i).priority = true ∧
       t.fhe.aclExt (t.routeLocations rid i).priority
         (t.routeRequests rid).requester = true)) := by
  obtain ⟨⟨m1, m2⟩, ⟨c1, c2⟩, hloc, -⟩ := h
  rw [hreq, hmax, hcap, hcnt]
  refine ⟨⟨fheStable_aclSelf hst m1, fheStable_aclExt hst m2⟩,
    ⟨fheStable_aclSelf hst c1, fheStable_aclExt hst c2⟩, ?_⟩
  intro i hi
  obtain ⟨⟨x1, x2⟩, ⟨y1, y2⟩, ⟨p1, p2⟩⟩ := hloc i hi
  rw [hlX i hi, hlY i hi, hlP i hi]
  exact ⟨⟨fheStable_aclSelf hst x1, fheStable_aclExt hst x2⟩,
    ⟨fheStable_aclSelf hst y1, fheStable_aclExt hst y2⟩,
    ⟨fheStable_aclSelf hst p1, fheStable_aclExt hst p2⟩⟩

theorem core_grantInv_step {s : Core.State} {c : Core.Call} {s1 : Core.State}
    {ev : List Core.Event} (hinv : GrantInv s)
    (hstep : Core.step s c = .ok (s1, ev)) : GrantInv s1 := by
  intro rid hrid
  cases c with
  | request sender now xs ys ps m cap =>
    simp only [Core.step] at hstep
    cases hreq : Core.requestRouteOptimization s sender now xs ys ps m cap with
    | error e => rw [hreq] at hstep; simp at hstep
    | ok r =>
      rw [hreq] at hstep
      simp only [Except.ok.injEq, Prod.mk.injEq] at hstep
      obtain ⟨hxy, hxp, -, -, -, hr⟩ := core_request_eq_ok hreq
      have h1 : s1 = (Core.requestBody s sender now xs ys ps m cap).2.1 := by
        rw [← hr]; exact hstep.1.symm
      subst h1
      have hziplen : ((xs.zip ys).zip ps).length = xs.length := by
        simp [List.length_zip]
        omega
      by_cases hcase : rid = s.routeCounter + 1
      · subst hcase
        have hat : (Core.requestBody s sender now xs ys ps m
            cap).2.1.routeRequests (s.routeCounter + 1) =
            ⟨sender, xs.length, s.fhe.nextHandle, s.fhe.nextHandle + 1,
             false, 0, now⟩ := by
          rw [core_requestBody_req_at, if_pos rfl]
        have hstc : FheStable
            (Core.storeLocs sender (s.routeCounter + 1) ((xs.zip ys).zip ps) 0
              s.routeLocations ((s.fhe.put (m % U32)).put (cap % U8))).2
            (Core.requestBody s sender now xs ys ps m cap).2.1.fhe := by
          rw [core_requestBody_fhe]
          refine fheStable_trans ?_ (fheStable_allow _ _ _)
          refine fheStable_trans ?_ (fheStable_allow _ _ _)
          refine fheStable_trans ?_ (fheStable_allowThis _ _)
          exact fheStable_allowThis _ _
        refine ⟨?_, ?_, ?_, ?_⟩
        · rw [hat]
          exact ⟨(core_requestBody_constraints_granted s sender now xs ys ps m cap).1,
            (core_requestBody_constraints_granted s sender now xs ys ps m cap).2.1⟩
        · rw [hat]
          exact ⟨(core_requestBody_constraints_granted s sender now xs ys ps m
              cap).2.2.1,
            (core_requestBody_constraints_granted s sender now xs ys ps m cap).2.2.2⟩
        · intro i hi
          rw [hat] at hi
          have hi2 : i < 0 + ((xs.zip ys).zip ps).length := by
            rw [hziplen]; simpa using hi
          obtain ⟨-, gx1, gx2, gy1, gy2, gp1, gp2⟩ :=
            storeLocs_grants sender (s.routeCounter + 1) ((xs.zip ys).zip ps) 0
              s.routeLocations ((s.fhe.put (m % U32)).put (cap % U8)) i
              (Nat.zero_le i) hi2
          rw [hat, core_requestBody_locations]
          exact ⟨⟨fheStable_aclSelf hstc gx1, fheStable_aclExt hstc gx2⟩,
            ⟨fheStable_aclSelf hstc gy1, fheStable_aclExt hstc gy2⟩,
            ⟨fheStable_aclSelf hstc gp1, fheStable_aclExt hstc gp2⟩⟩
        · intro hp
          rw [hat] at hp
          simp at hp
      · have hreqat : (Core.requestBody s sender now xs ys ps m
            cap).2.1.routeRequests rid = s.routeRequests rid := by
          rw [core_requestBody_req_at, if_neg hcase]
        rw [hreqat] at hrid
        have hold := hinv rid hrid
        have hst := core_requestBody_fhe_stable s sender now xs ys ps m cap
        have base := routeGranted_base_mono hst
          (by rw [hreqat]) (by rw [hreqat]) (by rw [hreqat]) (by rw [hreqat])
          (by intro i hi
              rw [core_requestBody_locations,
                storeLocs_untouched sender _ _ _ _ _ rid i (Or.inl hcase)])
          (by intro i hi
              rw [core_requestBody_locations,
                storeLocs_untouched sender _ _ _ _ _ rid i (Or.inl hcase)])
          (by intro i hi
              rw [core_requestBody_locations,
                storeLocs_untouched sender _ _ _ _ _ rid i (Or.inl hcase)])
          hold
        refine ⟨base.1, base.2.1, base.2.2, ?_⟩
        intro hp
        rw [hreqat] at hp
        obtain ⟨⟨t1, t2⟩, e1, e2⟩ := hold.2.2.2 hp
        rw [core_requestBody_opts, hreqat]
        exact ⟨⟨fheStable_aclSelf hst t1, fheStable_aclExt hst t2⟩,
          fheStable_aclSelf hst e1, fheStable_aclExt hst e2⟩
  | process sender now rid2 =>
    obtain ⟨-, -, -, -, -, hr⟩ := core_process_eq_ok hstep
    have h1 : s1 = (Core.processBody s now rid2).1 := congrArg Prod.fst hr
    subst h1
    rw [core_processBody_requester] at hrid
    have hold := hinv rid hrid
    have hst := core_processBody_fhe_stable s now rid2
    have base := routeGranted_base_mono hst
      (core_processBody_requester s now rid2 rid)
      (by rw [core_processBody_req_at]; by_cases h : rid = rid2 <;> simp [h])
      (by rw [core_processBody_req_at]; by_cases h : rid = rid2 <;> simp [h])
      (by rw [core_processBody_req_at]; by_cases h : rid = rid2 <;> simp [h])
      (by intro i hi; rw [core_processBody_locations])
      (by intro i hi; rw [core_processBody_locations])
      (by intro i hi; rw [core_processBody_locations])
      hold
    refine ⟨base.1, base.2.1, base.2.2, ?_⟩
    intro hp
    by_cases hcase : rid = rid2
    · subst hcase
      have hres := core_processBody_result_granted s now rid
      rw [core_processBody_requester]
      exact ⟨⟨hres.1, hres.2.1⟩, hres.2.2.1, hres.2.2.2⟩
    · rw [core_processBody_req_at, if_neg hcase] at hp
      obtain ⟨⟨t1, t2⟩, e1, e2⟩ := hold.2.2.2 hp
      rw [core_processBody_opt_other s now rid2 hcase,
        core_processBody_requester]
      exact ⟨⟨fheStable_aclSelf hst t1, fheStable_aclExt hst t2⟩,
        fheStable_aclSelf hst e1, fheStable_aclExt hst e2⟩
  | markDone sender rid2 idx =>
    obtain ⟨-, -, -, -, hr⟩ := core_markDone_eq_ok hstep
    have h1 : s1 = (Core.markDoneBody s rid2 idx).1 := congrArg Prod.fst hr
    subst h1
    have hold := hinv rid hrid
    have base := routeGranted_base_mono (t := (Core.markDoneBody s rid2 idx).1)
      (fheStable_refl s.fhe) rfl rfl rfl rfl
      (fun i _ => (core_markDoneBody_handles s rid2 idx rid i).1)
      (fun i _ => (core_markDoneBody_handles s rid2 idx rid i).2.1)
      (fun i _ => (core_markDoneBody_handles s rid2 idx rid i).2.2)
      hold
    exact ⟨base.1, base.2.1, base.2.2, fun hp => hold.2.2.2 hp⟩

theorem core_grantInv_reachable {s : Core.State} (h : Core.Reachable s) :
    GrantInv s := by
  induction h with
  | base d =>
    intro rid hrid
    exact absurd rfl hrid
  | next hr hstep ih => exact core_grantInv_step ih hstep

/-- C5: in every reachable core-contract state, every stored route is fully
granted: the submission ciphertexts (the per-location coordinates and
priority, `maxTravelDistance`, `vehicleCapacity`) each carry an access grant
for the contract itself and for the requester, recorded at submission time,
and once the route is processed the result ciphertexts (`totalDistance`,
`estimatedTime`) are granted to the contract and to the original requester. -/
theorem C5_access_grants (s : Core.State) (h : Core.Reachable s) : GrantInv s :=
  core_grantInv_reachable h

theorem C5_access_grants_witness :
    coreB.fhe.aclSelf (coreB.routeRequests 1).maxTravelDistance = true ∧
    coreB.fhe.aclExt (coreB.routeRequests 1).maxTravelDistance 2 = true ∧
    coreB.fhe.aclSelf (coreB.routeLocations 1 0).encryptedX = true ∧
    coreB.fhe.aclExt (coreB.routeLocations 1 1).priority 2 = true ∧
    coreB.fhe.aclSelf (coreB.optimizedRoutes 1).totalDistance = true ∧
    coreB.fhe.aclExt (coreB.optimizedRoutes 1).estimatedTime 2 = true := by
  have hreach : Core.Reachable coreB :=
    Core.Reachable.next
      (Core.Reachable.next (Core.Reachable.base 1)
        (show Core.step (Core.init 1)
            (Core.Call.request 2 10 [5, 3] [5, 3] [1, 2] 1000 10) =
          .ok (coreA, [Core.Event.RouteRequested 1 2 2]) from rfl))
      (show Core.step coreA (Core.Call.process 1 11 1) =
        .ok (coreB, [Core.Event.RouteOptimized 1 2 0]) from rfl)
  have hg := C5_access_grants coreB hreach 1 (by decide)
  exact ⟨hg.1.1, hg.1.2, (hg.2.2.1 0 (by decide)).1.1,
    (hg.2.2.1 1 (by decide)).2.2.2, (hg.2.2.2 rfl).1.1, (hg.2.2.2 rfl).2.2⟩

/-! ## C1 -/

/-- Value-level recurrence of the `_calculateOptimalRoute` loop: at step `i`
add the wrapped X difference plus wrapped Y difference (mod `2^32`) of the
pair `(i, i+1)` into the accumulator (mod `2^32`). -/
def specLoop (vx vy : Nat → Nat) : Nat → Nat → Nat → Nat
  | _, 0, acc => acc
  | i, fuel + 1, acc =>
    specLoop vx vy (i + 1) fuel
      ((acc + ((U32 + vx (i + 1) - vx i) % U32 +
               (U32 + vy (i + 1) - vy i) % U32) % U32) % U32)

theorem specLoop_congr (vx vy wx wy : Nat → Nat) :
    ∀ (fuel i acc : Nat),
      (∀ j, i ≤ j → j ≤ i + fuel → vx j = wx j ∧ vy j = wy j) →
      specLoop vx vy i fuel acc = specLoop wx wy i fuel acc := by
  intro fuel
  induction fuel with
  | zero => intro i acc _; rfl
  | succ n ih =>
    intro i acc hag
    simp only [specLoop]
    rw [(hag i (Nat.le_refl i) (by omega)).1,
        (hag i (Nat.le_refl i) (by omega)).2,
        (hag (i + 1) (by omega) (by omega)).1,
        (hag (i + 1) (by omega) (by omega)).2]
    exact ih (i + 1) _ (fun j h1 h2 => hag j (by omega) (by omega))

theorem fhe_put_hval_lt {f : Core.Fhe} {h : Nat} (hlt : h < f.nextHandle)
    (v : Nat) : (Core.Fhe.put f v).hval h = f.hval h := by
  rw [fhe_put_hval, if_neg (Nat.ne_of_lt hlt)]

theorem fhe_put_hval_self (f : Core.Fhe) (v : Nat) :
    (Core.Fhe.put f v).hval f.nextHandle = v := by
  rw [fhe_put_hval, if_pos rfl]

theorem calcLoop_value (rid : Nat) (locs : Nat → Nat → Core.DeliveryLocation) :
    ∀ (fuel i acc : Nat) (f : Core.Fhe),
      acc < f.nextHandle →
      (∀ j, i ≤ j → j ≤ i + fuel →
        (locs rid j).encryptedX < f.nextHandle ∧
        (locs rid j).encryptedY < f.nextHandle) →
      (Core.calcLoop rid locs i fuel acc f).1 <
        (Core.calcLoop rid locs i fuel acc f).2.nextHandle ∧
      (Core.calcLoop rid locs i fuel acc f).2.hval
          (Core.calcLoop rid locs i fuel acc f).1 =
        specLoop (fun j => f.hval (locs rid j).encryptedX)
          (fun j => f.hval (locs rid j).encryptedY) i fuel (f.hval acc) := by
  intro fuel
  induction fuel with
  | zero =>
    intro i acc f hacc _
    exact ⟨hacc, rfl⟩
  | succ n ih =>
    intro i acc f hacc hb
    have hxi := (hb i (Nat.le_refl i) (by omega)).1
    have hyi := (hb i (Nat.le_refl i) (by omega)).2
    have hxi1 := (hb (i + 1) (by omega) (by omega)).1
    have hyi1 := (hb (i + 1) (by omega) (by omega)).2
    simp only [Core.calcLoop, Core.Fhe.sub32, Core.Fhe.add32]
    set dx := (U32 + f.hval (locs rid (i + 1)).encryptedX -
      f.hval (locs rid i).encryptedX) % U32 with hdx
    have hvy1 : (f.put dx).hval (locs rid (i + 1)).encryptedY =
      f.hval (locs rid (i + 1)).encryptedY := fhe_put_hval_lt hyi1 dx
    have hvy0 : (f.put dx).hval (locs rid i).encryptedY =
      f.hval (locs rid i).encryptedY := fhe_put_hval_lt hyi dx
    rw [hvy1, hvy0]
    set dy := (U32 + f.hval (locs rid (i + 1)).encryptedY -
      f.hval (locs rid i).encryptedY) % U32 with hdy
    have hvdx : ((f.put dx).put dy).hval f.nextHandle = dx := by
      rw [fhe_put_hval_lt (by rw [fhe_put_nextHandle]; omega) dy,
        fhe_put_hval_self]
    have hvdy : ((f.put dx).put dy).hval (f.put dx).nextHandle = dy :=
      fhe_put_hval_self (f.put dx) dy
    rw [hvdx, hvdy]
    set d := (dx + dy) % U32 with hd
    have hvacc : (((f.put dx).put dy).put d).hval acc = f.hval acc := by
      rw [fhe_put_hval_lt (by rw [fhe_put_nextHandle, fhe_put_nextHandle]; omega) d,
        fhe_put_hval_lt (by rw [fhe_put_nextHandle]; omega) dy,
        fhe_put_hval_lt hacc dx]
    have hvd : (((f.put dx).put dy).put d).hval ((f.put dx).put dy).nextHandle = d :=
      fhe_put_hval_self ((f.put dx).put dy) d
    rw [hvacc, hvd]
    set a2 := (f.hval acc + d) % U32 with ha2
    have hrec := ih (i + 1) (((f.put dx).put dy).put d).nextHandle
      ((((f.put dx).put dy).put d).put a2)
      (by simp only [fhe_put_nextHandle]; omega)
      (by intro j hj1 hj2
          have hx := (hb j (by omega) (by omega)).1
          have hy := (hb j (by omega) (by omega)).2
          simp only [fhe_put_nextHandle]
          omega)
    refine ⟨hrec.1, ?_⟩
    rw [hrec.2]
    have hva2 : ((((f.put dx).put dy).put d).put a2).hval
        (((f.put dx).put dy).put d).nextHandle = a2 :=
      fhe_put_hval_self (((f.put dx).put dy).put d) a2
    rw [hva2]
    have hcongr := specLoop_congr
      (fun j => ((((f.put dx).put dy).put d).put a2).hval (locs rid j).encryptedX)
      (fun j => ((((f.put dx).put dy).put d).put a2).hval (locs rid j).encryptedY)
      (fun j => f.hval (locs rid j).encryptedX)
      (fun j => f.hval (locs rid j).encryptedY)
      n (i + 1) a2
      (by intro j hj1 hj2
          have hx := (hb j (by omega) (by omega)).1
          have hy := (hb j (by omega) (by omega)).2
          dsimp only
          constructor
          · rw [fhe_put_hval_lt (by simp only [fhe_put_nextHandle]; omega) a2,
              fhe_put_hval_lt (by simp only [fhe_put_nextHandle]; omega) d,
              fhe_put_hval_lt (by simp only [fhe_put_nextHandle]; omega) dy,
              fhe_put_hval_lt hx dx]
          · rw [fhe_put_hval_lt (by simp only [fhe_put_nextHandle]; omega) a2,
              fhe_put_hval_lt (by simp only [fhe_put_nextHandle]; omega) d,
              fhe_put_hval_lt (by simp only [fhe_put_nextHandle]; omega) dy,
              fhe_put_hval_lt hy dx])
    rw [hcongr]
    simp only [specLoop]

theorem storeLocs_values (sender : Address) (rid : Nat) :
    ∀ (trips : List ((Nat × Nat) × Nat)) (i : Nat)
      (locs : Nat → Nat → Core.DeliveryLocation) (f : Core.Fhe) (j : Nat),
      i ≤ j → j < i + trips.length →
      ((Core.storeLocs sender rid trips i locs f).1 rid j).encryptedX <
        (Core.storeLocs sender rid trips i locs f).2.nextHandle ∧
      ((Core.storeLocs sender rid trips i locs f).1 rid j).encryptedY <
        (Core.storeLocs sender rid trips i locs f).2.nextHandle ∧
      (Core.storeLocs sender rid trips i locs f).2.hval
        ((Core.storeLocs sender rid trips i locs f).1 rid j).encryptedX =
        (trips.getD (j - i) ((0, 0), 0)).1.1 % U32 ∧
      (Core.storeLocs sender rid trips i locs f).2.hval
        ((Core.storeLocs sender rid trips i locs f).1 rid j).encryptedY =
        (trips.getD (j - i) ((0, 0), 0)).1.2 % U32 := by
  intro trips
  induction trips with
  | nil =>
    intro i locs f j hij hlt
    simp only [List.length_nil] at hlt
    omega
  | cons t rest ih =>
    intro i locs f j hij hlt
    by_cases hji : j = i
    · subst hji
      simp only [Core.storeLocs, Core.Fhe.asEuint32, Core.Fhe.asEuint8]
      rw [storeLocs_untouched sender rid rest (j + 1) _ _ rid j
        (Or.inr (Or.inl (by omega)))]
      rw [if_pos ⟨rfl, rfl⟩]
      simp only [Nat.sub_self, List.getD_cons_zero]
      refine ⟨?_, ?_, ?_, ?_⟩
      · refine Nat.lt_of_lt_of_le ?_
          (fheStable_storeLocs sender rid rest (j + 1) _ _).1
        simp only [fhe_allow_nextHandle, fhe_allowThis_nextHandle,
          fhe_put_nextHandle]
        omega
      · refine Nat.lt_of_lt_of_le ?_
          (fheStable_storeLocs sender rid rest (j + 1) _ _).1
        simp only [fhe_allow_nextHandle, fhe_allowThis_nextHandle,
          fhe_put_nextHandle]
        omega
      · refine Eq.trans ((fheStable_storeLocs sender rid rest (j + 1) _ _).2.1 _ ?_) ?_
        · simp only [fhe_allow_nextHandle, fhe_allowThis_nextHandle,
            fhe_put_nextHandle]
          omega
        · simp only [fhe_allow_hval, fhe_allowThis_hval]
          simp [Core.Fhe.put]
          try exact fun hcontra => absurd hcontra (by omega)
      · refine Eq.trans ((fheStable_storeLocs sender rid rest (j + 1) _ _).2.1 _ ?_) ?_
        · simp only [fhe_allow_nextHandle, fhe_allowThis_nextHandle,
            fhe_put_nextHandle]
          omega
        · simp only [fhe_allow_hval, fhe_allowThis_hval]
          simp [Core.Fhe.put]
    · have hij2 : i + 1 ≤ j := by omega
      have hlt2 : j < (i + 1) + rest.length := by
        simp only [List.length_cons] at hlt
        omega
      have hsub : j - i = (j - (i + 1)) + 1 := by omega
      simp only [Core.storeLocs]
      rw [hsub]
      simp only [List.getD_cons_succ]
      exact ih (i + 1) _ _ j hij2 hlt2

theorem specLoop_eq_routeDistanceAux (vx vy : Nat → Nat) :
    ∀ (rest : List (Nat × Nat)) (p : Nat × Nat) (k acc : Nat),
      vx k = p.1 % U32 → vy k = p.2 % U32 →
      (∀ j, j < rest.length → vx (k + 1 + j) = (rest.getD j (0, 0)).1 % U32) →
      (∀ j, j < rest.length → vy (k + 1 + j) = (rest.getD j (0, 0)).2 % U32) →
      specLoop vx vy k rest.length acc = routeDistanceAux p rest acc := by
  intro rest
  induction rest with
  | nil => intro p k acc _ _ _ _; rfl
  | cons q rest2 ih =>
    intro p k acc hpx hpy hrx hry
    have hqx : vx (k + 1) = q.1 % U32 := by
      have h0 := hrx 0 (by simp)
      simpa using h0
    have hqy : vy (k + 1) = q.2 % U32 := by
      have h0 := hry 0 (by simp)
      simpa using h0
    simp only [List.length_cons, specLoop, routeDistanceAux]
    rw [hpx, hpy, hqx, hqy]
    have hstep : (acc + ((U32 + q.1 % U32 - p.1 % U32) % U32 +
        (U32 + q.2 % U32 - p.2 % U32) % U32) % U32) % U32 =
        (acc + pairDist p q) % U32 := by
      simp [pairDist, wrapSub]
    rw [hstep]
    refine ih q (k + 1) _ hqx hqy ?_ ?_
    · intro j hj
      have h0 := hrx (j + 1) (by simp; omega)
      rw [show k + 1 + (j + 1) = k + 1 + 1 + j by omega] at h0
      simpa using h0
    · intro j hj
      have h0 := hry (j + 1) (by simp; omega)
      rw [show k + 1 + (j + 1) = k + 1 + 1 + j by omega] at h0
      simpa using h0

theorem core_processBody_totalDistance (t : Core.State) (now rid : Nat) :
    ((Core.processBody t now rid).1.optimizedRoutes rid).totalDistance =
    (Core.calcLoop rid t.routeLocations 0
      ((t.routeRequests rid).locationCount - 1)
      (Core.Fhe.asEuint32 t.fhe 0).1 (Core.Fhe.asEuint32 t.fhe 0).2).1 := by
  simp [Core.processBody]

theorem core_processBody_hval_stable (t : Core.State) (now rid : Nat)
    (h : Nat) (hlt : h < (Core.calcLoop rid t.routeLocations 0
      ((t.routeRequests rid).locationCount - 1)
      (Core.Fhe.asEuint32 t.fhe 0).1 (Core.Fhe.asEuint32 t.fhe 0).2).2.nextHandle) :
    (Core.processBody t now rid).1.fhe.hval h =
    (Core.calcLoop rid t.routeLocations 0
      ((t.routeRequests rid).locationCount - 1)
      (Core.Fhe.asEuint32 t.fhe 0).1 (Core.Fhe.asEuint32 t.fhe 0).2).2.hval h := by
  simp only [Core.processBody, Core.Fhe.asEuint32, Core.Fhe.asEuint8,
    Core.Fhe.mul32] at hlt ⊢
  exact (fheStable_trans (fheStable_trans (fheStable_trans (fheStable_trans
    (fheStable_trans (fheStable_trans (fheStable_trans
      (fheStable_put _ _) (fheStable_put _ _)) (fheStable_put _ _))
      (fheStable_put _ _)) (fheStable_allowThis _ _)) (fheStable_allowThis _ _))
      (fheStable_allow _ _ _)) (fheStable_allow _ _ _)).2.1 h hlt

theorem core_processBody_total_value (t : Core.State) (now rid : Nat)
    (hn : (t.routeRequests rid).locationCount ≠ 0)
    (hb : ∀ j, j < (t.routeRequests rid).locationCount →
      (t.routeLocations rid j).encryptedX < t.fhe.nextHandle ∧
      (t.routeLocations rid j).encryptedY < t.fhe.nextHandle) :
    (Core.processBody t now rid).1.fhe.hval
      ((Core.processBody t now rid).1.optimizedRoutes rid).totalDistance =
    specLoop (fun j => t.fhe.hval (t.routeLocations rid j).encryptedX)
      (fun j => t.fhe.hval (t.routeLocations rid j).encryptedY)
      0 ((t.routeRequests rid).locationCount - 1) 0 := by
  have hbound : ∀ j, 0 ≤ j → j ≤ 0 + ((t.routeRequests rid).locationCount - 1) →
      (t.routeLocations rid j).encryptedX <
        (Core.Fhe.asEuint32 t.fhe 0).2.nextHandle ∧
      (t.routeLocations rid j).encryptedY <
        (Core.Fhe.asEuint32 t.fhe 0).2.nextHandle := by
    intro j hj1 hj2
    obtain ⟨h1, h2⟩ := hb j (by omega)
    simp only [Core.Fhe.asEuint32, fhe_put_nextHandle]
    omega
  have hacc : (Core.Fhe.asEuint32 t.fhe 0).1 <
      (Core.Fhe.asEuint32 t.fhe 0).2.nextHandle := by
    simp only [Core.Fhe.asEuint32, fhe_put_nextHandle]
    omega
  have hcv := calcLoop_value rid t.routeLocations
    ((t.routeRequests rid).locationCount - 1) 0
    (Core.Fhe.asEuint32 t.fhe 0).1 (Core.Fhe.asEuint32 t.fhe 0).2 hacc hbound
  rw [core_processBody_totalDistance,
    core_processBody_hval_stable t now rid _ hcv.1, hcv.2]
  have hz : (Core.Fhe.asEuint32 t.fhe 0).2.hval (Core.Fhe.asEuint32 t.fhe 0).1 = 0 := by
    simp only [Core.Fhe.asEuint32]
    rw [fhe_put_hval_self]
    simp [U32]
  rw [hz]
  refine specLoop_congr _ _ _ _ _ _ _ ?_
  intro j hj1 hj2
  obtain ⟨h1, h2⟩ := hb j (by omega)
  constructor
  · simp only [Core.Fhe.asEuint32]
    exact fhe_put_hval_lt h1 _
  · simp only [Core.Fhe.asEuint32]
    exact fhe_put_hval_lt h2 _

theorem zip_getD_fst (l : List (Nat × Nat)) :
    ∀ (ps : List Nat) (j : Nat), j < l.length → j < ps.length →
      ((l.zip ps).getD j ((0, 0), 0)).1 = l.getD j (0, 0) := by
  induction l with
  | nil => intro ps j hj1 _; simp at hj1
  | cons a l2 ih =>
    intro ps j hj1 hj2
    cases ps with
    | nil => simp at hj2
    | cons b ps2 =>
      cases j with
      | zero => simp
      | succ j2 =>
        simp only [List.zip_cons_cons, List.getD_cons_succ]
        exact ih ps2 j2 (by simpa using hj1) (by simpa using hj2)

/-- C1 counterexample: for the two-location route (5,5), (3,3) the code's
`totalDistance` plaintext is `2^32 - 4` (two wrapping subtractions, no
absolute value), while the claimed Manhattan accumulation is `4`. -/
theorem C1_counterexample :
    coreB.fhe.hval ((coreB.optimizedRoutes 1).totalDistance) = U32 - 4 ∧
    routeDistance [(5, 5), (3, 3)] = U32 - 4 ∧
    manhattanRouteDistance [(5, 5), (3, 3)] = 4 ∧
    U32 - 4 ≠ 4 := ⟨rfl, rfl, rfl, by decide⟩

/-- C1 (amended): for every route created by `requestRouteOptimization` with
coordinates `xs`, `ys` and then successfully processed, the plaintext value
under the stored `totalDistance` ciphertext equals `routeDistance (xs.zip
ys)`: the accumulation, over consecutive location pairs in submission order
starting from an encryption of 0, of the *wrapping* difference of X
coordinates plus the wrapping difference of Y coordinates, each sum and each
accumulation reduced mod `2^32` (two ciphertext subtractions and one
ciphertext addition per pair).  No absolute value is computed, so this equals
the Manhattan distance only when coordinates are non-decreasing along the
route. -/
theorem C1_total_distance (s : Core.State) (sender sp : Address)
    (now now2 : Nat) (xs ys ps : List Nat) (m cp : Nat)
    (r1 : Nat × Core.State × List Core.Event)
    (r2 : Core.State × List Core.Event)
    (h1 : Core.requestRouteOptimization s sender now xs ys ps m cp = .ok r1)
    (h2 : Core.processRouteOptimization r1.2.1 sp now2 r1.1 = .ok r2) :
    r2.1.fhe.hval ((r2.1.optimizedRoutes r1.1).totalDistance) =
      routeDistance (xs.zip ys) := by
  obtain ⟨hxy, hxp, hne, hclt, h256, hr1⟩ := core_request_eq_ok h1
  subst hr1
  obtain ⟨hsp, hproc0, hreq0, hcnt0, hcnt256, hr2⟩ := core_process_eq_ok h2
  subst hr2
  rw [core_requestBody_fst] at h2 ⊢
  have hzplen : ((xs.zip ys).zip ps).length = xs.length := by
    simp [List.length_zip]
    omega
  have hllen : (xs.zip ys).length = xs.length := by
    simp [List.length_zip]
    omega
  have hcount : ((Core.requestBody s sender now xs ys ps m
      cp).2.1.routeRequests (s.routeCounter + 1)).locationCount = xs.length := by
    rw [core_requestBody_req_at, if_pos rfl]
  have hn : ((Core.requestBody s sender now xs ys ps m
      cp).2.1.routeRequests (s.routeCounter + 1)).locationCount ≠ 0 := by
    rw [hcount]; exact hne
  have hb : ∀ j, j < ((Core.requestBody s sender now xs ys ps m
        cp).2.1.routeRequests (s.routeCounter + 1)).locationCount →
      ((Core.requestBody s sender now xs ys ps m
        cp).2.1.routeLocations (s.routeCounter + 1) j).encryptedX <
        (Core.requestBody s sender now xs ys ps m cp).2.1.fhe.nextHandle ∧
      ((Core.requestBody s sender now xs ys ps m
        cp).2.1.routeLocations (s.routeCounter + 1) j).encryptedY <
        (Core.requestBody s sender now xs ys ps m cp).2.1.fhe.nextHandle := by
    intro j hj
    rw [hcount] at hj
    have hv := storeLocs_values sender (s.routeCounter + 1) ((xs.zip ys).zip ps)
      0 s.routeLocations ((s.fhe.put (m % U32)).put (cp % U8)) j
      (Nat.zero_le j) (by omega)
    exact ⟨hv.1, hv.2.1⟩
  rw [core_processBody_total_value _ now2 _ hn hb]
  rw [hcount]
  obtain ⟨p, rest, hl⟩ : ∃ p rest, xs.zip ys = p :: rest := by
    cases hzip : xs.zip ys with
    | nil => rw [hzip] at hllen; simp at hllen; omega
    | cons p rest => exact ⟨p, rest, rfl⟩
  rw [hl, routeDistance]
  have hrl : rest.length = xs.length - 1 := by
    have : (xs.zip ys).length = rest.length + 1 := by rw [hl]; rfl
    omega
  rw [show xs.length - 1 = rest.length from hrl.symm]
  have hgetD : ∀ j, j < xs.length →
      (Core.requestBody s sender now xs ys ps m cp).2.1.fhe.hval
        ((Core.requestBody s sender now xs ys ps m
          cp).2.1.routeLocations (s.routeCounter + 1) j).encryptedX =
        ((xs.zip ys).getD j (0, 0)).1 % U32 ∧
      (Core.requestBody s sender now xs ys ps m cp).2.1.fhe.hval
        ((Core.requestBody s sender now xs ys ps m
          cp).2.1.routeLocations (s.routeCounter + 1) j).encryptedY =
        ((xs.zip ys).getD j (0, 0)).2 % U32 := by
    intro j hj
    have hv := storeLocs_values sender (s.routeCounter + 1) ((xs.zip ys).zip ps)
      0 s.routeLocations ((s.fhe.put (m % U32)).put (cp % U8)) j
      (Nat.zero_le j) (by omega)
    have hz := zip_getD_fst (xs.zip ys) ps j (by omega) (by omega)
    constructor
    · refine Eq.trans hv.2.2.1 ?_
      simp only [Nat.sub_zero, hz]
    · refine Eq.trans hv.2.2.2 ?_
      simp only [Nat.sub_zero, hz]
  refine specLoop_eq_routeDistanceAux _ _ rest p 0 0 ?_ ?_ ?_ ?_
  · have := (hgetD 0 (by omega)).1
    rw [hl] at this
    simpa using this
  · have := (hgetD 0 (by omega)).2
    rw [hl] at this
    simpa using this
  · intro j hj
    have hjx : j + 1 < xs.length := by omega
    have := (hgetD (j + 1) hjx).1
    rw [hl] at this
    simp only [List.getD_cons_succ] at this
    rw [show 0 + 1 + j = j + 1 from by omega]
    exact this
  · intro j hj
    have hjx : j + 1 < xs.length := by omega
    have := (hgetD (j + 1) hjx).2
    rw [hl] at this
    simp only [List.getD_cons_succ] at this
    rw [show 0 + 1 + j = j + 1 from by omega]
    exact this

theorem C1_total_distance_witness :
    coreB.fhe.hval ((coreB.optimizedRoutes 1).totalDistance) =
      routeDistance ([5, 3].zip [5, 3]) :=
  C1_total_distance (Core.init 1) 2 1 10 11 [5, 3] [5, 3] [1, 2] 1000 10
    (Core.requestBody (Core.init 1) 2 10 [5, 3] [5, 3] [1, 2] 1000 10)
    (Core.processBody
      (Core.requestBody (Core.init 1) 2 10 [5, 3] [5, 3] [1, 2] 1000 10).2.1 11 1)
    rfl rfl

/-! ## C6 -/

/-- Low equivalence of example-contract request records: all fields agree
except the two ciphertext scalars (`maxTravelDistance`, `vehicleCapacity`). -/
def ExReqLow (a b : Ex.RouteRequest) : Prop :=
  a.requester = b.requester ∧ a.locationCount = b.locationCount ∧
  a.processed = b.processed ∧ a.optimizedRouteId = b.optimizedRouteId ∧
  a.timestamp = b.timestamp ∧ a.requestBlock = b.requestBlock

/-- Low equivalence of example-contract result records: all fields agree
except the three ciphertext scalars (`totalDistance`, `totalDistanceSquared`,
`estimatedTime`). -/
def ExOptLow (a b : Ex.OptimizedRoute) : Prop :=
  a.routeId = b.routeId ∧ a.requester = b.requester ∧
  a.isConfidential = b.isConfidential ∧ a.createdAt = b.createdAt ∧
  a.locationOrder = b.locationOrder ∧ a.finalized = b.finalized

/-- Low equivalence of example-contract states: everything agrees except the
plaintext values under ciphertext fields. -/
def ExLowEq (s1 s2 : Ex.State) : Prop :=
  s1.owner = s2.owner ∧ s1.routeCounter = s2.routeCounter ∧
  s1.paused = s2.paused ∧ s1.pausers = s2.pausers ∧
  s1.routeLocations = s2.routeLocations ∧ s1.userRoutes = s2.userRoutes ∧
  (∀ rid, ExReqLow (s1.routeRequests rid) (s2.routeRequests rid)) ∧
  (∀ rid, ExOptLow (s1.optimizedRoutes rid) (s2.optimizedRoutes rid))

/-- Two example-contract calls that differ only in confidential inputs: for
`request`, the caller, times and block agree while the coordinate, priority
and constraint scalars may differ arbitrarily; every other call agrees
exactly. -/
inductive ExCallLow : Ex.Call → Ex.Call → Prop where
  | request (sender now blk x1 y1 p1 m1 c1 x2 y2 p2 m2 c2 : Nat) :
      ExCallLow (.request sender now blk x1 y1 p1 m1 c1)
        (.request sender now blk x2 y2 p2 m2 c2)
  | process (sender now rid : Nat) :
      ExCallLow (.process sender now rid) (.process sender now rid)
  | finalize (sender rid : Nat) :
      ExCallLow (.finalize sender rid) (.finalize sender rid)
  | markDone (sender now rid idx : Nat) :
      ExCallLow (.markDone sender now rid idx) (.markDone sender now rid idx)
  | addP (sender p : Nat) : ExCallLow (.addP sender p) (.addP sender p)
  | removeP (sender p : Nat) : ExCallLow (.removeP sender p) (.removeP sender p)
  | toggle (sender : Nat) : ExCallLow (.toggle sender) (.toggle sender)
  | transferOwn (sender newOwner : Nat) :
      ExCallLow (.transferOwn sender newOwner) (.transferOwn sender newOwner)

/-- Matching outcomes: equal errors, or success with identical event lists
and low-equivalent states. -/
def ExStepLow :
    Except Err (Ex.State × List Ex.Event) →
    Except Err (Ex.State × List Ex.Event) → Prop
  | .error e1, .error e2 => e1 = e2
  | .ok (t1, ev1), .ok (t2, ev2) => ExLowEq t1 t2 ∧ ev1 = ev2
  | _, _ => False

theorem ex_step_noninterference (s1 s2 : Ex.State) (c1 c2 : Ex.Call)
    (hlow : ExLowEq s1 s2) (hc : ExCallLow c1 c2) :
    ExStepLow (Ex.step s1 c1) (Ex.step s2 c2) := by
  obtain ⟨howner, hcounter, hpaused, hpausers, hlocs, huser, hreq, hopt⟩ := hlow
  cases hc with
  | request sender now blk x1 y1 p1 m1 cc1 x2 y2 p2 m2 cc2 =>
    simp only [Ex.step, Ex.requestRouteOptimization, Ex.requestBody]
    rw [← hpaused, ← hcounter]
    by_cases hp : s1.paused
    · simp [hp, ExStepLow]
    · by_cases hovf : U32 ≤ s1.routeCounter + 1
      · simp [hp, hovf, ExStepLow]
      · simp only [hp, hovf, Bool.false_eq_true, if_false, ite_false, ExStepLow]
        refine ⟨⟨howner, rfl, rfl, hpausers, hlocs, ?_, ?_, hopt⟩, trivial⟩
        · rw [huser]
        · intro rid
          by_cases hr : rid = s1.routeCounter + 1
          · simp only [if_pos hr]
            exact ⟨rfl, rfl, rfl, rfl, rfl, rfl⟩
          · simp only [if_neg hr]
            exact hreq rid
  | process sender now rid =>
    obtain ⟨e1, e2, e3, e4, e5, e6⟩ := hreq rid
    simp only [Ex.step, Ex.processRouteOptimization, Ex.processBody]
    rw [← howner, ← hpaused, ← e1, ← e2, ← e3, ← e5, ← e6]
    by_cases hso : sender = s1.owner
    · by_cases hp : s1.paused
      · simp [hso, hp, ExStepLow]
      · by_cases hpr : (s1.routeRequests rid).processed
        · simp [hso, hp, hpr, ExStepLow]
        · by_cases hrq : (s1.routeRequests rid).requester = 0
          · simp [hso, hp, hpr, hrq, ExStepLow]
          · by_cases hct : 256 ≤ (s1.routeRequests rid).locationCount
            · simp [hso, hp, hpr, hrq, hct, ExStepLow]
            · simp only [hso, hp, hpr, hrq, hct, Bool.false_eq_true, if_false,
                ite_false, ite_true, if_true, ne_eq, not_true_eq_false,
                not_false_eq_true, ExStepLow]
              refine ⟨⟨rfl, hcounter, rfl, hpausers, hlocs, huser, ?_, ?_⟩, ?_⟩
              · intro r
                by_cases hr : r = rid
                · simp only [if_pos hr]
                  exact ⟨rfl, rfl, rfl, rfl, rfl, rfl⟩
                · simp only [if_neg hr]
                  exact hreq r
              · intro r
                by_cases hr : r = rid
                · simp only [if_pos hr]
                  exact ⟨rfl, rfl, rfl, rfl, rfl, rfl⟩
                · simp only [if_neg hr]
                  exact hopt r
              · trivial
    · simp [hso, ExStepLow]
  | finalize sender rid =>
    obtain ⟨e1, e2, e3, e4, e5, e6⟩ := hreq rid
    simp only [Ex.step, Ex.finalizeRoute, Ex.finalizeBody]
    rw [← howner, ← hpaused, ← e3]
    by_cases hso : sender = s1.owner
    · by_cases hp : s1.paused
      · simp [hso, hp, ExStepLow]
      · by_cases hpr : (s1.routeRequests rid).processed
        · simp only [hso, hp, hpr, Bool.false_eq_true, if_false, ite_false,
            ite_true, if_true, ne_eq, not_true_eq_false, not_false_eq_true,
            ExStepLow]
          refine ⟨⟨rfl, hcounter, rfl, hpausers, hlocs, huser, hreq, ?_⟩, trivial⟩
          intro r
          obtain ⟨o1, o2, o3, o4, o5, o6⟩ := hopt rid
          by_cases hr : r = rid
          · simp only [if_pos hr]
            exact ⟨o1, o2, o3, o4, o5, rfl⟩
          · simp only [if_neg hr]
            exact hopt r
        · simp [hso, hp, hpr, ExStepLow]
    · simp [hso, ExStepLow]
  | markDone sender now rid idx =>
    obtain ⟨e1, e2, e3, e4, e5, e6⟩ := hreq rid
    simp only [Ex.step, Ex.markDeliveryCompleted, Ex.markDoneBody]
    rw [← hpaused, ← e1, ← e2, ← e3, ← hlocs]
    by_cases hsr : sender = (s1.routeRequests rid).requester
    · by_cases hp : s1.paused
      · simp [hsr, hp, ExStepLow]
      · by_cases hpr : (s1.routeRequests rid).processed
        · by_cases hidx : idx < (s1.routeRequests rid).locationCount
          · by_cases hact : (s1.routeLocations rid idx).isActive
            · simp only [hsr, hp, hpr, hidx, hact, Bool.false_eq_true, if_false,
                ite_false, ite_true, if_true, ne_eq, not_true_eq_false,
                not_false_eq_true, ExStepLow]
              exact ⟨⟨howner, hcounter, rfl, hpausers, rfl, huser, hreq, hopt⟩,
                trivial⟩
            · simp [hsr, hp, hpr, hidx, hact, ExStepLow]
          · simp [hsr, hp, hpr, hidx, ExStepLow]
        · simp [hsr, hp, hpr, ExStepLow]
    · simp [hsr, ExStepLow]
  | addP sender p =>
    simp only [Ex.step, Ex.addPauser]
    rw [← howner, ← hpausers]
    by_cases hso : sender = s1.owner
    · by_cases hp0 : p = 0
      · simp [hso, hp0, ExStepLow]
      · by_cases hpz : s1.pausers p
        · simp [hso, hp0, hpz, ExStepLow]
        · simp only [hso, hp0, hpz, Bool.false_eq_true, if_false, ite_false,
            ite_true, if_true, ne_eq, not_true_eq_false, not_false_eq_true,
            ExStepLow]
          exact ⟨⟨rfl, hcounter, hpaused, rfl, hlocs, huser, hreq, hopt⟩, trivial⟩
    · simp [hso, ExStepLow]
  | removeP sender p =>
    simp only [Ex.step, Ex.removePauser]
    rw [← howner, ← hpausers]
    by_cases hso : sender = s1.owner
    · by_cases hpz : s1.pausers p
      · simp only [hso, hpz, Bool.false_eq_true, if_false, ite_false,
          ite_true, if_true, ne_eq, not_true_eq_false, not_false_eq_true,
          ExStepLow]
        exact ⟨⟨rfl, hcounter, hpaused, rfl, hlocs, huser, hreq, hopt⟩, trivial⟩
      · simp [hso, hpz, ExStepLow]
    · simp [hso, ExStepLow]
  | toggle sender =>
    simp only [Ex.step, Ex.togglePause]
    rw [← howner, ← hpausers, ← hpaused]
    by_cases hcond : ¬ s1.pausers sender ∧ sender ≠ s1.owner
    · simp [hcond, ExStepLow]
    · simp only [hcond, if_false, ite_false, ExStepLow]
      exact ⟨⟨rfl, hcounter, rfl, rfl, hlocs, huser, hreq, hopt⟩, trivial⟩
  | transferOwn sender newOwner =>
    simp only [Ex.step, Ex.transferOwnership]
    rw [← howner]
    by_cases hso : sender = s1.owner
    · by_cases hn0 : newOwner = 0
      · simp [hso, hn0, ExStepLow]
      · simp only [hso, hn0, Bool.false_eq_true, if_false, ite_false,
          ite_true, if_true, ne_eq, not_true_eq_false, not_false_eq_true,
          ExStepLow]
        exact ⟨⟨rfl, hcounter, hpaused, hpausers, hlocs, huser, hreq, hopt⟩, trivial⟩
    · simp [hso, ExStepLow]

/-- Low equivalence of FHE engine states: identical handle allocation and
access-control lists; the plaintext values under the handles may differ. -/
def FheLow (f g : Core.Fhe) : Prop :=
  f.nextHandle = g.nextHandle ∧ f.aclSelf = g.aclSelf ∧ f.aclExt = g.aclExt

theorem fheLow_put {f g : Core.Fhe} (h : FheLow f g) (v w : Nat) :
    FheLow (f.put v) (g.put w) := by
  obtain ⟨hn, hs, he⟩ := h
  exact ⟨by simp only [fhe_put_nextHandle, hn], hs, he⟩

theorem fheLow_allowThis {f g : Core.Fhe} (h : FheLow f g) (x : Nat) :
    FheLow (f.allowThis x) (g.allowThis x) := by
  obtain ⟨hn, hs, he⟩ := h
  refine ⟨hn, ?_, he⟩
  show (fun h2 => if h2 = x then true else f.aclSelf h2) =
    (fun h2 => if h2 = x then true else g.aclSelf h2)
  rw [hs]

theorem fheLow_allow {f g : Core.Fhe} (h : FheLow f g) (x : Nat) (a : Address) :
    FheLow (f.allow x a) (g.allow x a) := by
  obtain ⟨hn, hs, he⟩ := h
  refine ⟨hn, hs, ?_⟩
  show (fun h2 a2 => if h2 = x ∧ a2 = a then true else f.aclExt h2 a2) =
    (fun h2 a2 => if h2 = x ∧ a2 = a then true else g.aclExt h2 a2)
  rw [he]

theorem storeLocs_low (sender rid : Nat) :
    ∀ (trips1 trips2 : List ((Nat × Nat) × Nat)) (i : Nat)
      (locs : Nat → Nat → Core.DeliveryLocation) (f1 f2 : Core.Fhe),
      trips1.length = trips2.length → FheLow f1 f2 →
      (Core.storeLocs sender rid trips1 i locs f1).1 =
        (Core.storeLocs sender rid trips2 i locs f2).1 ∧
      FheLow (Core.storeLocs sender rid trips1 i locs f1).2
        (Core.storeLocs sender rid trips2 i locs f2).2 := by
  intro trips1
  induction trips1 with
  | nil =>
    intro trips2 i locs f1 f2 hlen hlow
    cases trips2 with
    | nil => exact ⟨rfl, hlow⟩
    | cons t2 rest2 => simp at hlen
  | cons t1 rest1 ih =>
    intro trips2 i locs f1 f2 hlen hlow
    cases trips2 with
    | nil => simp at hlen
    | cons t2 rest2 =>
      have hlen2 : rest1.length = rest2.length := by simpa using hlen
      simp only [Core.storeLocs, Core.Fhe.asEuint32, Core.Fhe.asEuint8,
        fhe_put_nextHandle]
      rw [← hlow.1]
      exact ih rest2 (i + 1) _ _ _ hlen2
        (fheLow_allow (fheLow_allow (fheLow_allow (fheLow_allowThis
          (fheLow_allowThis (fheLow_allowThis
            (fheLow_put (fheLow_put (fheLow_put hlow _ _) _ _) _ _) _) _) _)
          _ sender) _ sender) _ sender)

theorem calcLoop_low (rid : Nat) (locs : Nat → Nat → Core.DeliveryLocation) :
    ∀ (fuel i acc : Nat) (f1 f2 : Core.Fhe), FheLow f1 f2 →
      (Core.calcLoop rid locs i fuel acc f1).1 =
        (Core.calcLoop rid locs i fuel acc f2).1 ∧
      FheLow (Core.calcLoop rid locs i fuel acc f1).2
        (Core.calcLoop rid locs i fuel acc f2).2 := by
  intro fuel
  induction fuel with
  | zero => intro i acc f1 f2 hlow; exact ⟨rfl, hlow⟩
  | succ n ih =>
    intro i acc f1 f2 hlow
    simp only [Core.calcLoop, Core.Fhe.sub32, Core.Fhe.add32,
      fhe_put_nextHandle]
    rw [← hlow.1]
    exact ih (i + 1) _ _ _
      (fheLow_put (fheLow_put (fheLow_put (fheLow_put hlow _ _) _ _) _ _) _ _)

/-- Low equivalence of core-contract states: everything public agrees
(including all stored ciphertext handles and the access-control lists); only
the plaintext values under the handles may differ. -/
def CoreLowEq (s1 s2 : Core.State) : Prop :=
  s1.owner = s2.owner ∧ s1.routeCounter = s2.routeCounter ∧
  s1.routeRequests = s2.routeRequests ∧
  s1.routeLocations = s2.routeLocations ∧
  s1.optimizedRoutes = s2.optimizedRoutes ∧
  s1.userRoutes = s2.userRoutes ∧ FheLow s1.fhe s2.fhe

/-- Two core-contract calls that differ only in the confidential plaintext
values: for `request`, the caller, time and array shapes (lengths) agree
while the coordinate, priority and constraint values may differ; the other
calls agree exactly. -/
inductive CoreCallLow : Core.Call → Core.Call → Prop where
  | request (sender now : Nat) (xs1 ys1 ps1 : List Nat) (m1 c1 : Nat)
      (xs2 ys2 ps2 : List Nat) (m2 c2 : Nat) :
      xs1.length = xs2.length → ys1.length = ys2.length →
      ps1.length = ps2.length →
      CoreCallLow (.request sender now xs1 ys1 ps1 m1 c1)
        (.request sender now xs2 ys2 ps2 m2 c2)
  | process (sender now rid : Nat) :
      CoreCallLow (.process sender now rid) (.process sender now rid)
  | markDone (sender rid idx : Nat) :
      CoreCallLow (.markDone sender rid idx) (.markDone sender rid idx)

/-- Matching outcomes for the core contract. -/
def CoreStepLow :
    Except Err (Core.State × List Core.Event) →
    Except Err (Core.State × List Core.Event) → Prop
  | .error e1, .error e2 => e1 = e2
  | .ok (t1, ev1), .ok (t2, ev2) => CoreLowEq t1 t2 ∧ ev1 = ev2
  | _, _ => False

theorem core_step_noninterference (s1 s2 : Core.State) (c1 c2 : Core.Call)
    (hlow : CoreLowEq s1 s2) (hc : CoreCallLow c1 c2) :
    CoreStepLow (Core.step s1 c1) (Core.step s2 c2) := by
  obtain ⟨howner, hcounter, hreqs, hlocs, hopts, huser, hfhe⟩ := hlow
  cases hc with
  | request sender now xs1 ys1 ps1 m1 cc1 xs2 ys2 ps2 m2 cc2 hlx hly hlp =>
    simp only [Core.step, Core.requestRouteOptimization, Core.requestBody,
      Core.Fhe.asEuint32, Core.Fhe.asEuint8, fhe_put_nextHandle]
    rw [← hcounter, ← hlx, ← hly, ← hlp, ← hreqs, ← hlocs, ← huser, ← hfhe.1]
    have hziplen : ((xs1.zip ys1).zip ps1).length =
        ((xs2.zip ys2).zip ps2).length := by
      simp [List.length_zip, ← hlx, ← hly, ← hlp]
    have hsl := storeLocs_low sender (s1.routeCounter + 1)
      ((xs1.zip ys1).zip ps1) ((xs2.zip ys2).zip ps2) 0 s1.routeLocations
      ((s1.fhe.put (m1 % U32)).put (cc1 % U8))
      ((s2.fhe.put (m2 % U32)).put (cc2 % U8))
      hziplen (fheLow_put (fheLow_put hfhe _ _) _ _)
    by_cases h1 : xs1.length ≠ ys1.length
    · simp [h1, CoreStepLow]
    · by_cases h2 : xs1.length ≠ ps1.length
      · simp [h1, h2, CoreStepLow]
      · by_cases h3 : xs1.length = 0
        · have hy0 : ys1.length = 0 := by omega
          have hp0 : ps1.length = 0 := by omega
          simp [h1, h2, h3, hy0, hp0, CoreStepLow]
        · by_cases h4 : U32 ≤ s1.routeCounter + 1
          · simp [h1, h2, h3, h4, CoreStepLow]
          · by_cases h5 : 256 ≤ xs1.length
            · simp [h1, h2, h3, h4, h5, CoreStepLow]
            · simp only [h1, h2, h3, h4, h5, if_false, ite_false, ite_true,
                if_true, not_false_eq_true, not_true_eq_false, CoreStepLow]
              refine ⟨⟨howner, rfl, rfl, hsl.1, hopts, rfl, ?_⟩, trivial⟩
              exact fheLow_allow (fheLow_allow (fheLow_allowThis
                (fheLow_allowThis hsl.2 _) _) _ sender) _ sender
  | process sender now rid =>
    simp only [Core.step, Core.processRouteOptimization, Core.processBody,
      Core.Fhe.asEuint32, Core.Fhe.asEuint8, Core.Fhe.mul32,
      fhe_put_nextHandle]
    rw [← howner, ← hreqs, ← hlocs, ← hopts, ← hfhe.1]
    have hcl := calcLoop_low rid s1.routeLocations
      ((s1.routeRequests rid).locationCount - 1) 0 s1.fhe.nextHandle
      (s1.fhe.put (0 % U32)) (s2.fhe.put (0 % U32)) (fheLow_put hfhe _ _)
    by_cases h1 : sender ≠ s1.owner
    · simp [h1, CoreStepLow]
    · by_cases h2 : (s1.routeRequests rid).processed
      · simp [h1, h2, CoreStepLow]
      · by_cases h3 : (s1.routeRequests rid).requester = 0
        · simp [h1, h2, h3, CoreStepLow]
        · by_cases h4 : (s1.routeRequests rid).locationCount = 0 ∨
              256 ≤ (s1.routeRequests rid).locationCount
          · simp [h1, h2, h3, h4, CoreStepLow]
          · simp only [h1, h2, h3, h4, if_false, ite_false, ite_true, if_true,
              not_false_eq_true, not_true_eq_false, Bool.false_eq_true,
              CoreStepLow]
            refine ⟨⟨rfl, hcounter, rfl, rfl, ?_, huser, ?_⟩, trivial⟩
            · rw [hcl.1, hcl.2.1]
            · rw [hcl.1, hcl.2.1]
              exact fheLow_allow (fheLow_allow (fheLow_allowThis
                (fheLow_allowThis (fheLow_put (fheLow_put (fheLow_put
                  (fheLow_put hcl.2 _ _) _ _) _ _) _ _) _) _) _ _) _ _
  | markDone sender rid idx =>
    simp only [Core.step, Core.markDeliveryCompleted, Core.markDoneBody]
    rw [← hreqs, ← hlocs]
    by_cases h1 : sender ≠ (s1.routeRequests rid).requester
    · simp [h1, CoreStepLow]
    · by_cases h2 : (s1.routeRequests rid).processed
      · by_cases h3 : idx < (s1.routeRequests rid).locationCount
        · by_cases h4 : (s1.routeLocations rid idx).isActive
          · simp only [h1, h2, h3, h4, if_false, ite_false, ite_true, if_true,
              not_false_eq_true, not_true_eq_false, CoreStepLow]
            exact ⟨⟨howner, hcounter, rfl, rfl, hopts, huser, hfhe⟩, trivial⟩
          · simp [h1, h2, h3, h4, CoreStepLow]
        · simp [h1, h2, h3, CoreStepLow]
      · simp [h1, h2, CoreStepLow]

/-- C6: noninterference of the event log (and of all public state) with the
confidential inputs.  For both contracts: any two executions from
low-equivalent states (equal except for the plaintext values under
ciphertexts) of two calls that differ only in the confidential input values
(coordinates, priorities, maxDistance, vehicleCapacity) either fail with the
same error or succeed emitting *identical* event lists — so no parameter of
`RouteRequested`, `RouteOptimized`, `RouteFinalized`, `DeliveryCompleted` or
the admin events ever carries a value derived from the confidential
inputs — and leave low-equivalent states. -/
theorem C6_events_noninterference :
    (∀ (s1 s2 : Ex.State) (c1 c2 : Ex.Call),
      ExLowEq s1 s2 → ExCallLow c1 c2 →
      ExStepLow (Ex.step s1 c1) (Ex.step s2 c2)) ∧
    (∀ (s1 s2 : Core.State) (c1 c2 : Core.Call),
      CoreLowEq s1 s2 → CoreCallLow c1 c2 →
      CoreStepLow (Core.step s1 c1) (Core.step s2 c2)) :=
  ⟨ex_step_noninterference, core_step_noninterference⟩

theorem C6_events_noninterference_witness :
    ExStepLow (Ex.step (Ex.init 1).1 (Ex.Call.request 2 10 5 100 150 1 1000 10))
      (Ex.step (Ex.init 1).1 (Ex.Call.request 2 10 5 7 8 9 999 20)) ∧
    CoreStepLow
      (Core.step (Core.init 1) (Core.Call.request 2 10 [5, 3] [5, 3] [1, 2] 1000 10))
      (Core.step (Core.init 1) (Core.Call.request 2 10 [9, 9] [8, 8] [3, 4] 77 5)) := by
  constructor
  · exact C6_events_noninterference.1 (Ex.init 1).1 (Ex.init 1).1 _ _
      ⟨rfl, rfl, rfl, rfl, rfl, rfl,
       fun _ => ⟨rfl, rfl, rfl, rfl, rfl, rfl⟩,
       fun _ => ⟨rfl, rfl, rfl, rfl, rfl, rfl⟩⟩
      (ExCallLow.request 2 10 5 100 150 1 1000 10 7 8 9 999 20)
  · exact C6_events_noninterference.2 (Core.init 1) (Core.init 1) _ _
      ⟨rfl, rfl, rfl, rfl, rfl, rfl, rfl, rfl, rfl⟩
      (CoreCallLow.request 2 10 [5, 3] [5, 3] [1, 2] 1000 10
        [9, 9] [8, 8] [3, 4] 77 5 rfl rfl rfl)
